import Mathlib

/-!
Verification development for the OpenCue backend (Python sources under
`backend/`).  The Python modules are shallowly embedded: pure functions
become Lean functions, stateful objects become explicit state records with
step functions, machine integers become `Int`, Python floats become `ℚ`
(all arithmetic involved is exact decimal/ratio arithmetic), and the
messages a handler sends over the websocket become an explicit event list
returned by the handler.  Wall-clock readings (`datetime.now()`,
`time.time()`) are passed in as explicit `now`/`wall` parameters in
milliseconds.
-/

namespace OpenCue

/-- Python `int(q)` on a float/rational value: truncation toward zero. -/
def pyInt (q : ℚ) : ℤ :=
  if 0 ≤ q then ⌊q⌋ else -(⌊-q⌋)

/-- Python `sorted` on integers (ascending); insertion sort. -/
def insertSorted (x : ℤ) : List ℤ → List ℤ
  | [] => [x]
  | y :: ys => if x < y then x :: y :: ys else y :: insertSorted x ys

/-- Python `sorted` on a list of integers. -/
def pySorted (l : List ℤ) : List ℤ :=
  l.foldr insertSorted []

/-! ## Cue tracking (backend/sync_session.py)

A `SyncSession`s cue-dispatch state consists of the `triggered_cues` set
(Python `set` of cue ids) and the `active_cues` dict (cue id to cue dict).
`_check_cues_by_position` and `handle_seek` are embedded below; the cue
dicts of a loaded cue file are embedded as `Cue` records. -/

/-- A cue dict of a loaded cue file (fields used by the session manager). -/
structure Cue where
  id : String
  start_ms : ℤ
  end_ms : ℤ
  action : String
  category : String
  word : String
deriving Repr, DecidableEq

/-- The cue-dispatch state of a `SyncSession`: `triggered_cues` (a Python
set, embedded as a list queried by membership) and `active_cues` (a Python
dict from cue id to cue dict, embedded as an association list). -/
structure CueTrack where
  triggered_cues : List String
  active_cues : List (String × Cue)
deriving Repr, DecidableEq

/-- Messages sent to the client by `_send_cue_command`: a `start` event is
sent as an `overlay` message, an `end` event as a `cueEnd` message. -/
inductive CueEvent where
  | overlayStart (c : Cue)
  | cueEnd (c : Cue)
deriving Repr, DecidableEq

/-- Python dict membership `k in d` for the association-list embedding. -/
def dictMem (k : String) (d : List (String × Cue)) : Bool :=
  d.any (fun kv => kv.1 = k)

/-- Python dict assignment `d[k] = v` (replaces an existing binding,
otherwise appends). -/
def dictInsert (k : String) (v : Cue) : List (String × Cue) → List (String × Cue)
  | [] => [(k, v)]
  | kv :: rest => if kv.1 = k then (k, v) :: rest else kv :: dictInsert k v rest

/-- Python dict deletion `del d[k]` (removes the binding of `k`). -/
def dictErase (k : String) : List (String × Cue) → List (String × Cue)
  | [] => []
  | kv :: rest => if kv.1 = k then rest else kv :: dictErase k rest

/-- `lookahead_ms` of `SessionManager._check_cues_by_position`: the source
sets it to 500 unconditionally (the comment notes it was increased from
200). -/
def lookahead_ms : ℤ := 500

/-- `SessionManager._check_cues_by_position`: iterate over the cues of the
loaded file; a cue not yet triggered whose window has been reached
(`start_ms <= position + lookahead_ms` and `position < end_ms`) is added
to `triggered_cues` and `active_cues` and an overlay start command is
sent; otherwise (`elif`) an active cue with `position >= end_ms` is
removed from `active_cues` and a `cueEnd` command is sent.  The returned
list collects the commands sent via `_send_cue_command` in order. -/
def checkCuesByPosition (cues : List Cue) (st : CueTrack) (position_ms : ℤ) :
    CueTrack × List CueEvent :=
  match cues with
  | [] => (st, [])
  | c :: rest =>
    if c.id ∉ st.triggered_cues ∧
        c.start_ms ≤ position_ms + lookahead_ms ∧ position_ms < c.end_ms then
      let st1 : CueTrack :=
        ⟨st.triggered_cues.insert c.id, dictInsert c.id c st.active_cues⟩
      let r := checkCuesByPosition rest st1 position_ms
      (r.1, CueEvent.overlayStart c :: r.2)
    else if dictMem c.id st.active_cues = true ∧ position_ms ≥ c.end_ms then
      let st1 : CueTrack := ⟨st.triggered_cues, dictErase c.id st.active_cues⟩
      let r := checkCuesByPosition rest st1 position_ms
      (r.1, CueEvent.cueEnd c :: r.2)
    else
      checkCuesByPosition rest st position_ms

/-- `SessionManager._get_cue_start`: look the cue id up in the loaded cue
file and return its `start_ms`, defaulting to 0. -/
def getCueStart (cues : List Cue) (cueId : String) : ℤ :=
  match cues.find? (fun c => c.id = cueId) with
  | some c => c.start_ms
  | none => 0

/-- `SessionManager.handle_seek`: discard from `triggered_cues` every id
whose cue (looked up in the file) starts after the seek position, and
delete from `active_cues` every cue with `end_ms <= position` or
`start_ms > position`.  The source sends no message to the client in this
handler, so the returned event list is empty. -/
def handleSeek (cues : List Cue) (st : CueTrack) (position_ms : ℤ) :
    CueTrack × List CueEvent :=
  (⟨st.triggered_cues.filter (fun cueId => ¬ getCueStart cues cueId > position_ms),
    st.active_cues.filter
      (fun kv => ¬ (kv.2.end_ms ≤ position_ms ∨ kv.2.start_ms > position_ms))⟩,
   [])

theorem dictMem_iff {k : String} {d : List (String × Cue)} :
    dictMem k d = true ↔ k ∈ d.map Prod.fst := by
  induction d with
  | nil => simp [dictMem]
  | cons kv rest ih =>
    rw [dictMem, List.any_cons, Bool.or_eq_true, decide_eq_true_eq,
      List.map_cons, List.mem_cons]
    rw [dictMem] at ih
    constructor
    · intro h
      rcases h with h | h
      · left; exact h.symm
      · right; exact ih.mp h
    · intro h
      rcases h with h | h
      · left; exact h.symm
      · right; exact ih.mpr h

theorem mem_keys_insert_iff {x k : String} {v : Cue} {d : List (String × Cue)} :
    x ∈ (dictInsert k v d).map Prod.fst ↔ (x = k ∨ x ∈ d.map Prod.fst) := by
  induction d with
  | nil => simp [dictInsert]
  | cons kv rest ih =>
    by_cases hk : kv.1 = k
    · rw [dictInsert, if_pos hk, List.map_cons, List.mem_cons, List.map_cons,
        List.mem_cons]
      constructor
      · intro h
        rcases h with h | h
        · left; exact h
        · right; right; exact h
      · intro h
        rcases h with h | h
        · left; exact h
        · rcases h with h | h
          · left; rw [h, hk]
          · right; exact h
    · rw [dictInsert, if_neg hk, List.map_cons, List.mem_cons, List.map_cons,
        List.mem_cons, ih]
      constructor
      · intro h
        rcases h with h | (h | h)
        · right; left; exact h
        · left; exact h
        · right; right; exact h
      · intro h
        rcases h with h | (h | h)
        · right; left; exact h
        · left; exact h
        · right; right; exact h

theorem mem_keys_erase_ne {x k : String} {d : List (String × Cue)}
    (hne : x ≠ k) :
    (x ∈ (dictErase k d).map Prod.fst ↔ x ∈ d.map Prod.fst) := by
  induction d with
  | nil => simp [dictErase]
  | cons kv rest ih =>
    by_cases hk : kv.1 = k
    · rw [dictErase, if_pos hk, List.map_cons, List.mem_cons]
      constructor
      · intro h; right; exact h
      · intro h
        rcases h with h | h
        · exact absurd (h.trans hk) hne
        · exact h
    · rw [dictErase, if_neg hk, List.map_cons, List.mem_cons, List.map_cons,
        List.mem_cons, ih]

theorem mem_keys_erase_subset {x k : String} {d : List (String × Cue)}
    (h : x ∈ (dictErase k d).map Prod.fst) : x ∈ d.map Prod.fst := by
  induction d with
  | nil => simp [dictErase] at h
  | cons kv rest ih =>
    by_cases hk : kv.1 = k
    · rw [dictErase, if_pos hk] at h
      rw [List.map_cons, List.mem_cons]; right; exact h
    · rw [dictErase, if_neg hk, List.map_cons, List.mem_cons] at h
      rw [List.map_cons, List.mem_cons]
      rcases h with h | h
      · left; exact h
      · right; exact ih h

theorem not_mem_keys_erase_self {k : String} {d : List (String × Cue)}
    (h : (d.map Prod.fst).Nodup) : k ∉ (dictErase k d).map Prod.fst := by
  induction d with
  | nil => simp [dictErase]
  | cons kv rest ih =>
    rw [List.map_cons, List.nodup_cons] at h
    by_cases hk : kv.1 = k
    · rw [dictErase, if_pos hk]
      rw [← hk]; exact h.1
    · rw [dictErase, if_neg hk, List.map_cons, List.mem_cons]
      intro hcon
      rcases hcon with hcon | hcon
      · exact hk hcon.symm
      · exact ih h.2 hcon

theorem keys_nodup_insert {k : String} (v : Cue) (d : List (String × Cue))
    (h : (d.map Prod.fst).Nodup) :
    ((dictInsert k v d).map Prod.fst).Nodup := by
  induction d with
  | nil => simp [dictInsert]
  | cons kv rest ih =>
    rw [List.map_cons, List.nodup_cons] at h
    by_cases hk : kv.1 = k
    · rw [dictInsert, if_pos hk, List.map_cons, List.nodup_cons]
      exact ⟨by rw [← hk]; exact h.1, h.2⟩
    · rw [dictInsert, if_neg hk, List.map_cons, List.nodup_cons]
      refine ⟨?_, ih h.2⟩
      intro hcon
      rcases mem_keys_insert_iff.mp hcon with h2 | h2
      · exact hk h2
      · exact h.1 h2

theorem keys_nodup_erase {k : String} (d : List (String × Cue))
    (h : (d.map Prod.fst).Nodup) :
    ((dictErase k d).map Prod.fst).Nodup := by
  induction d with
  | nil => simp [dictErase]
  | cons kv rest ih =>
    rw [List.map_cons, List.nodup_cons] at h
    by_cases hk : kv.1 = k
    · rw [dictErase, if_pos hk]; exact h.2
    · rw [dictErase, if_neg hk, List.map_cons, List.nodup_cons]
      exact ⟨fun hcon => h.1 (mem_keys_erase_subset hcon), ih h.2⟩

theorem dictMem_insert_ne {x k : String} (v : Cue) (d : List (String × Cue))
    (h : x ≠ k) : dictMem x (dictInsert k v d) = dictMem x d := by
  cases hd : dictMem x d
  · rw [Bool.eq_false_iff]
    intro hcon
    rcases mem_keys_insert_iff.mp (dictMem_iff.mp hcon) with h2 | h2
    · exact h h2
    · have := dictMem_iff.mpr h2
      rw [hd] at this
      cases this
  · exact dictMem_iff.mpr (mem_keys_insert_iff.mpr (Or.inr (dictMem_iff.mp hd)))

theorem dictMem_insert_self {k : String} (v : Cue) (d : List (String × Cue)) :
    dictMem k (dictInsert k v d) = true :=
  dictMem_iff.mpr (mem_keys_insert_iff.mpr (Or.inl rfl))

theorem dictMem_erase_ne {x k : String} (d : List (String × Cue))
    (h : x ≠ k) : dictMem x (dictErase k d) = dictMem x d := by
  cases hd : dictMem x d
  · rw [Bool.eq_false_iff]
    intro hcon
    have := dictMem_iff.mpr ((mem_keys_erase_ne h).mp (dictMem_iff.mp hcon))
    rw [hd] at this
    cases this
  · exact dictMem_iff.mpr ((mem_keys_erase_ne h).mpr (dictMem_iff.mp hd))

theorem dictMem_erase_self {k : String} (d : List (String × Cue))
    (h : (d.map Prod.fst).Nodup) : dictMem k (dictErase k d) = false := by
  rw [Bool.eq_false_iff]
  intro hcon
  exact not_mem_keys_erase_self h (dictMem_iff.mp hcon)

theorem checkCues_cons_start {d : Cue} {rest : List Cue} {st : CueTrack} {pos : ℤ}
    (h : d.id ∉ st.triggered_cues ∧ d.start_ms ≤ pos + lookahead_ms ∧ pos < d.end_ms) :
    checkCuesByPosition (d :: rest) st pos =
      ((checkCuesByPosition rest
          ⟨st.triggered_cues.insert d.id, dictInsert d.id d st.active_cues⟩ pos).1,
        CueEvent.overlayStart d ::
          (checkCuesByPosition rest
            ⟨st.triggered_cues.insert d.id, dictInsert d.id d st.active_cues⟩ pos).2) := by
  rw [checkCuesByPosition]
  simp only [if_pos h]

theorem checkCues_cons_end {d : Cue} {rest : List Cue} {st : CueTrack} {pos : ℤ}
    (h1 : ¬ (d.id ∉ st.triggered_cues ∧ d.start_ms ≤ pos + lookahead_ms ∧ pos < d.end_ms))
    (h2 : dictMem d.id st.active_cues = true ∧ pos ≥ d.end_ms) :
    checkCuesByPosition (d :: rest) st pos =
      ((checkCuesByPosition rest
          ⟨st.triggered_cues, dictErase d.id st.active_cues⟩ pos).1,
        CueEvent.cueEnd d ::
          (checkCuesByPosition rest
            ⟨st.triggered_cues, dictErase d.id st.active_cues⟩ pos).2) := by
  rw [checkCuesByPosition]
  simp only [if_neg h1, if_pos h2]

theorem checkCues_cons_none {d : Cue} {rest : List Cue} {st : CueTrack} {pos : ℤ}
    (h1 : ¬ (d.id ∉ st.triggered_cues ∧ d.start_ms ≤ pos + lookahead_ms ∧ pos < d.end_ms))
    (h2 : ¬ (dictMem d.id st.active_cues = true ∧ pos ≥ d.end_ms)) :
    checkCuesByPosition (d :: rest) st pos = checkCuesByPosition rest st pos := by
  rw [checkCuesByPosition]
  simp only [if_neg h1, if_neg h2]

theorem checkCues_event_mem {cues : List Cue} {st : CueTrack} {pos : ℤ} {ev : CueEvent}
    (h : ev ∈ (checkCuesByPosition cues st pos).2) :
    ∃ d ∈ cues, ev = CueEvent.overlayStart d ∨ ev = CueEvent.cueEnd d := by
  induction cues generalizing st with
  | nil => rw [checkCuesByPosition] at h; cases h
  | cons d rest ih =>
    by_cases hstart :
        (d.id ∉ st.triggered_cues ∧ d.start_ms ≤ pos + lookahead_ms ∧ pos < d.end_ms)
    · rw [checkCues_cons_start hstart] at h
      rcases List.mem_cons.mp h with h | h
      · exact ⟨d, List.mem_cons_self d rest, Or.inl h⟩
      · rcases ih h with ⟨e, he, hev⟩
        exact ⟨e, List.mem_cons_of_mem d he, hev⟩
    · by_cases hend : (dictMem d.id st.active_cues = true ∧ pos ≥ d.end_ms)
      · rw [checkCues_cons_end hstart hend] at h
        rcases List.mem_cons.mp h with h | h
        · exact ⟨d, List.mem_cons_self d rest, Or.inr h⟩
        · rcases ih h with ⟨e, he, hev⟩
          exact ⟨e, List.mem_cons_of_mem d he, hev⟩
      · rw [checkCues_cons_none hstart hend] at h
        rcases ih h with ⟨e, he, hev⟩
        exact ⟨e, List.mem_cons_of_mem d he, hev⟩

theorem checkCues_preserve {cues : List Cue} {st : CueTrack} {pos : ℤ} {x : String}
    (hx : x ∉ cues.map Cue.id) :
    (x ∈ (checkCuesByPosition cues st pos).1.triggered_cues ↔ x ∈ st.triggered_cues) ∧
      dictMem x (checkCuesByPosition cues st pos).1.active_cues
        = dictMem x st.active_cues := by
  induction cues generalizing st with
  | nil => rw [checkCuesByPosition]; exact ⟨Iff.rfl, rfl⟩
  | cons d rest ih =>
    rw [List.map_cons, List.mem_cons] at hx
    push_neg at hx
    have hxd : x ≠ d.id := hx.1
    have hxr : x ∉ rest.map Cue.id := hx.2
    by_cases hstart :
        (d.id ∉ st.triggered_cues ∧ d.start_ms ≤ pos + lookahead_ms ∧ pos < d.end_ms)
    · rw [checkCues_cons_start hstart]
      obtain ⟨p1, p2⟩ := @ih ⟨st.triggered_cues.insert d.id,
        dictInsert d.id d st.active_cues⟩ hxr
      refine ⟨?_, ?_⟩
      · rw [p1]
        simp only [List.mem_insert_iff]
        constructor
        · intro h
          rcases h with h | h
          · exact absurd h hxd
          · exact h
        · intro h; right; exact h
      · rw [p2]
        exact dictMem_insert_ne d st.active_cues hxd
    · by_cases hend : (dictMem d.id st.active_cues = true ∧ pos ≥ d.end_ms)
      · rw [checkCues_cons_end hstart hend]
        obtain ⟨p1, p2⟩ := @ih ⟨st.triggered_cues,
          dictErase d.id st.active_cues⟩ hxr
        refine ⟨p1, ?_⟩
        rw [p2]
        exact dictMem_erase_ne st.active_cues hxd
      · rw [checkCues_cons_none hstart hend]
        exact ih hxr

theorem checkCues_spec (cues : List Cue) (st : CueTrack) (pos : ℤ) (c : Cue)
    (hids : (cues.map Cue.id).Nodup)
    (hkeys : (st.active_cues.map Prod.fst).Nodup)
    (hc : c ∈ cues) :
    (CueEvent.overlayStart c ∈ (checkCuesByPosition cues st pos).2 ↔
      (c.id ∉ st.triggered_cues ∧ c.start_ms ≤ pos + lookahead_ms ∧ pos < c.end_ms)) ∧
    (CueEvent.cueEnd c ∈ (checkCuesByPosition cues st pos).2 ↔
      (dictMem c.id st.active_cues = true ∧ pos ≥ c.end_ms)) ∧
    (c.id ∈ (checkCuesByPosition cues st pos).1.triggered_cues ↔
      (c.id ∈ st.triggered_cues ∨ (c.start_ms ≤ pos + lookahead_ms ∧ pos < c.end_ms))) ∧
    (dictMem c.id (checkCuesByPosition cues st pos).1.active_cues = true ↔
      ((c.id ∉ st.triggered_cues ∧ c.start_ms ≤ pos + lookahead_ms ∧ pos < c.end_ms) ∨
        (dictMem c.id st.active_cues = true ∧ pos < c.end_ms))) := by
  induction cues generalizing st with
  | nil => cases hc
  | cons d rest ih =>
    rw [List.map_cons, List.nodup_cons] at hids
    have hdid : d.id ∉ rest.map Cue.id := hids.1
    have hrest : (rest.map Cue.id).Nodup := hids.2
    rcases List.mem_cons.mp hc with hcd | hcr
    · -- c is the head cue
      subst hcd
      have hnr : c ∉ rest := fun hmem => hdid (List.mem_map_of_mem Cue.id hmem)
      have hnoev : ∀ st2 : CueTrack,
          CueEvent.overlayStart c ∉ (checkCuesByPosition rest st2 pos).2 ∧
          CueEvent.cueEnd c ∉ (checkCuesByPosition rest st2 pos).2 := by
        intro st2
        constructor
        · intro h
          rcases checkCues_event_mem h with ⟨e, he, hev⟩
          rcases hev with hev | hev
          · cases hev; exact hnr he
          · cases hev
        · intro h
          rcases checkCues_event_mem h with ⟨e, he, hev⟩
          rcases hev with hev | hev
          · cases hev
          · cases hev; exact hnr he
      by_cases hstart :
          (c.id ∉ st.triggered_cues ∧ c.start_ms ≤ pos + lookahead_ms ∧ pos < c.end_ms)
      · rw [checkCues_cons_start hstart]
        obtain ⟨p1, p2⟩ := @checkCues_preserve rest ⟨st.triggered_cues.insert c.id,
          dictInsert c.id c st.active_cues⟩ pos c.id hdid
        refine ⟨?_, ?_, ?_, ?_⟩
        · constructor
          · intro _; exact hstart
          · intro _; exact List.mem_cons_self _ _
        · constructor
          · intro h
            rcases List.mem_cons.mp h with h | h
            · cases h
            · exact absurd h (hnoev _).2
          · intro h
            exact absurd hstart.2.2 (not_lt.mpr h.2)
        · rw [p1]
          constructor
          · intro _; right; exact ⟨hstart.2.1, hstart.2.2⟩
          · intro _; exact List.mem_insert_self _ _
        · rw [p2, dictMem_insert_self]
          constructor
          · intro _; left; exact hstart
          · intro _; rfl
      · by_cases hend : (dictMem c.id st.active_cues = true ∧ pos ≥ c.end_ms)
        · rw [checkCues_cons_end hstart hend]
          obtain ⟨p1, p2⟩ := @checkCues_preserve rest ⟨st.triggered_cues,
            dictErase c.id st.active_cues⟩ pos c.id hdid
          refine ⟨?_, ?_, ?_, ?_⟩
          · constructor
            · intro h
              rcases List.mem_cons.mp h with h | h
              · cases h
              · exact absurd h (hnoev _).1
            · intro h; exact absurd h hstart
          · constructor
            · intro _; exact hend
            · intro _; exact List.mem_cons_self _ _
          · rw [p1]
            constructor
            · intro h; left; exact h
            · intro h
              rcases h with h | h
              · exact h
              · exact absurd h.2 (not_lt.mpr hend.2)
          · rw [p2, dictMem_erase_self st.active_cues hkeys]
            constructor
            · intro h; cases h
            · intro h
              rcases h with h | h
              · exact absurd h hstart
              · exact absurd h.2 (not_lt.mpr hend.2)
        · rw [checkCues_cons_none hstart hend]
          obtain ⟨p1, p2⟩ := @checkCues_preserve rest st pos c.id hdid
          refine ⟨?_, ?_, ?_, ?_⟩
          · constructor
            · intro h; exact absurd h (hnoev _).1
            · intro h; exact absurd h hstart
          · constructor
            · intro h; exact absurd h (hnoev _).2
            · intro h; exact absurd h hend
          · rw [p1]
            constructor
            · intro h; left; exact h
            · intro h
              rcases h with h | h
              · exact h
              · by_contra hpre
                exact hstart ⟨hpre, h⟩
          · rw [p2]
            constructor
            · intro h
              right
              refine ⟨h, ?_⟩
              by_contra hlt
              exact hend ⟨h, not_lt.mp hlt⟩
            · intro h
              rcases h with h | h
              · exact absurd h hstart
              · exact h.1
    · -- c is in the tail
      have hne : c.id ≠ d.id := by
        intro h
        exact hdid (h ▸ List.mem_map_of_mem Cue.id hcr)
      by_cases hstart :
          (d.id ∉ st.triggered_cues ∧ d.start_ms ≤ pos + lookahead_ms ∧ pos < d.end_ms)
      · rw [checkCues_cons_start hstart]
        obtain ⟨i1, i2, i3, i4⟩ := ih ⟨st.triggered_cues.insert d.id,
          dictInsert d.id d st.active_cues⟩ hrest
          (keys_nodup_insert d st.active_cues hkeys) hcr
        have e1 : c.id ∈ st.triggered_cues.insert d.id ↔ c.id ∈ st.triggered_cues := by
          simp only [List.mem_insert_iff]
          constructor
          · intro h
            rcases h with h | h
            · exact absurd h hne
            · exact h
          · intro h; right; exact h
        have e2 : dictMem c.id (dictInsert d.id d st.active_cues)
            = dictMem c.id st.active_cues :=
          dictMem_insert_ne d st.active_cues hne
        rw [e1] at i1 i3 i4
        rw [e2] at i2 i4
        have hevne1 : CueEvent.overlayStart c ≠ CueEvent.overlayStart d := by
          intro h
          cases h
          exact hne rfl
        have hevne2 : CueEvent.cueEnd c ≠ CueEvent.overlayStart d := by
          intro h; cases h
        refine ⟨?_, ?_, i3, i4⟩
        · rw [← i1]
          constructor
          · intro h
            rcases List.mem_cons.mp h with h | h
            · exact absurd h hevne1
            · exact h
          · intro h; exact List.mem_cons_of_mem _ h
        · rw [← i2]
          constructor
          · intro h
            rcases List.mem_cons.mp h with h | h
            · exact absurd h hevne2
            · exact h
          · intro h; exact List.mem_cons_of_mem _ h
      · by_cases hend : (dictMem d.id st.active_cues = true ∧ pos ≥ d.end_ms)
        · rw [checkCues_cons_end hstart hend]
          obtain ⟨i1, i2, i3, i4⟩ := ih ⟨st.triggered_cues,
            dictErase d.id st.active_cues⟩ hrest
            (keys_nodup_erase st.active_cues hkeys) hcr
          have e2 : dictMem c.id (dictErase d.id st.active_cues)
              = dictMem c.id st.active_cues :=
            dictMem_erase_ne st.active_cues hne
          rw [e2] at i2 i4
          have hevne1 : CueEvent.overlayStart c ≠ CueEvent.cueEnd d := by
            intro h; cases h
          have hevne2 : CueEvent.cueEnd c ≠ CueEvent.cueEnd d := by
            intro h
            cases h
            exact hne rfl
          refine ⟨?_, ?_, i3, i4⟩
          · rw [← i1]
            constructor
            · intro h
              rcases List.mem_cons.mp h with h | h
              · exact absurd h hevne1
              · exact h
            · intro h; exact List.mem_cons_of_mem _ h
          · rw [← i2]
            constructor
            · intro h
              rcases List.mem_cons.mp h with h | h
              · exact absurd h hevne2
              · exact h
            · intro h; exact List.mem_cons_of_mem _ h
        · rw [checkCues_cons_none hstart hend]
          exact ih st hrest hkeys hcr

/-- The single cue of scenario S3: `cue_0001`, 3000 to 4000 ms, action mute. -/
def cueS3 : Cue := ⟨"cue_0001", 3000, 4000, "mute", "", ""⟩

/-- Fresh cue-tracking state (cleared `triggered_cues` and `active_cues`). -/
def emptyTrack : CueTrack := ⟨[], []⟩

/-- C1, counterexample.  The claim states that in timestamp-only mode
(cue file with no sync data) the lookahead is 200 ms, so a cue starting at
3000 ms must not trigger at position 2600.  The code uses a 500 ms
lookahead unconditionally and does trigger the cue at 2600, refuting the
claimed trigger condition at this input. -/
theorem C1_counterexample_lookahead :
    CueEvent.overlayStart cueS3 ∈ (checkCuesByPosition [cueS3] emptyTrack 2600).2 ∧
      ¬ (cueS3.start_ms ≤ 2600 + 200) := by
  constructor
  · decide
  · decide

/-- C1 (amended: the lookahead is 500 ms for every position update,
including timestamp-only mode; the source never uses 200).  For a cue file
with distinct cue ids and an active-cue dict with distinct keys, a
position update at effective content time `pos` emits an overlay start for
cue `c` (adding it to the triggered and active sets) exactly when `c.id`
is not yet triggered, `c.start_ms ≤ pos + 500` and `pos < c.end_ms`, and
emits a `cueEnd` for `c` (removing it from the active set) exactly when
`c.id` is in the active set and `pos ≥ c.end_ms`. -/
theorem C1_cue_trigger_characterization (cues : List Cue) (st : CueTrack)
    (pos : ℤ) (c : Cue)
    (hids : (cues.map Cue.id).Nodup)
    (hkeys : (st.active_cues.map Prod.fst).Nodup)
    (hc : c ∈ cues) :
    (CueEvent.overlayStart c ∈ (checkCuesByPosition cues st pos).2 ↔
      (c.id ∉ st.triggered_cues ∧ c.start_ms ≤ pos + 500 ∧ pos < c.end_ms)) ∧
    (CueEvent.cueEnd c ∈ (checkCuesByPosition cues st pos).2 ↔
      (dictMem c.id st.active_cues = true ∧ pos ≥ c.end_ms)) ∧
    (c.id ∈ (checkCuesByPosition cues st pos).1.triggered_cues ↔
      (c.id ∈ st.triggered_cues ∨ (c.start_ms ≤ pos + 500 ∧ pos < c.end_ms))) ∧
    (dictMem c.id (checkCuesByPosition cues st pos).1.active_cues = true ↔
      ((c.id ∉ st.triggered_cues ∧ c.start_ms ≤ pos + 500 ∧ pos < c.end_ms) ∨
        (dictMem c.id st.active_cues = true ∧ pos < c.end_ms))) :=
  checkCues_spec cues st pos c hids hkeys hc

/-- C1, witness: scenario S3 run through the amended theorem.  With the
single cue `cue_0001` (3000 to 4000 ms) and a fresh session, a playback
position update at 2600 emits the overlay for `cue_0001`, and a later
position update at 4100 from the resulting state emits its `cueEnd`. -/
theorem C1_cue_trigger_witness :
    CueEvent.overlayStart cueS3 ∈ (checkCuesByPosition [cueS3] emptyTrack 2600).2 ∧
      CueEvent.cueEnd cueS3 ∈
        (checkCuesByPosition [cueS3]
          (checkCuesByPosition [cueS3] emptyTrack 2600).1 4100).2 := by
  constructor
  · exact (C1_cue_trigger_characterization [cueS3] emptyTrack 2600 cueS3
      (by decide) (by decide) (by decide)).1.mpr (by decide)
  · exact (C1_cue_trigger_characterization [cueS3]
      (checkCuesByPosition [cueS3] emptyTrack 2600).1 4100 cueS3
      (by decide) (by decide) (by decide)).2.1.mpr (by decide)

/-- Cue-tracking state of scenario S6: `cue_0001` is triggered and active. -/
def trackS6 : CueTrack := ⟨["cue_0001"], [("cue_0001", cueS3)]⟩

/-- C2, counterexample.  The claim states that a seek to 1000 with
`cue_0001` (3000 to 4000 ms) triggered and active emits a `cueEnd` for it.
The code resets the triggered flag and removes the cue from the active
set, but `handle_seek` sends no message at all, so no `cueEnd` is
emitted. -/
theorem C2_counterexample_no_end_event :
    (handleSeek [cueS3] trackS6 1000).2 = [] ∧
      CueEvent.cueEnd cueS3 ∉ (handleSeek [cueS3] trackS6 1000).2 ∧
      "cue_0001" ∉ (handleSeek [cueS3] trackS6 1000).1.triggered_cues ∧
      dictMem "cue_0001" (handleSeek [cueS3] trackS6 1000).1.active_cues = false := by
  refine ⟨by decide, by decide, by decide, by decide⟩

/-- C2 (amended: no end event is emitted on seek).  On a seek to position
`pos`, exactly the triggered flags of cues whose file entry starts after
`pos` are cleared, and exactly the active cues with `end_ms ≤ pos` or
`start_ms > pos` are removed from the active set; `handle_seek` emits no
event (in particular no `cueEnd`). -/
theorem C2_seek_reset (cues : List Cue) (st : CueTrack) (pos : ℤ) :
    (∀ cueId : String,
      cueId ∈ (handleSeek cues st pos).1.triggered_cues ↔
        (cueId ∈ st.triggered_cues ∧ getCueStart cues cueId ≤ pos)) ∧
    (∀ kv : String × Cue,
      kv ∈ (handleSeek cues st pos).1.active_cues ↔
        (kv ∈ st.active_cues ∧ pos < kv.2.end_ms ∧ kv.2.start_ms ≤ pos)) ∧
    (handleSeek cues st pos).2 = [] := by
  refine ⟨?_, ?_, rfl⟩
  · intro cueId
    rw [handleSeek]
    simp only [List.mem_filter, decide_eq_true_eq, not_lt]
  · intro kv
    rw [handleSeek]
    simp only [List.mem_filter, decide_eq_true_eq, not_or, not_lt, not_le]

/-! ## Subtitle-text sync engine (backend/subtitle_sync.py)

Text handling is embedded on `List Char` (the character data of Python
strings); `String` fields hold the same data.  All inputs of interest are
ASCII, for which `Char.toLower`, `Char.isAlphanum` and `Char.isWhitespace`
agree with Python `str.lower`, regex `\w` and `str.split`. -/

/-- Python regex word character (re `\w`): alphanumeric or underscore. -/
def isWordChar (c : Char) : Bool := c.isAlphanum || c = '_'

/-- The apostrophe character. -/
def apostrophe : Char := Char.ofNat 39

/-- Python `str.split()` (split on whitespace runs, no empty parts);
`acc` accumulates the current word in reverse. -/
def splitWsAux : List Char → List Char → List (List Char)
  | [], acc => if acc = [] then [] else [acc.reverse]
  | c :: rest, acc =>
    if c.isWhitespace then
      if acc = [] then splitWsAux rest [] else acc.reverse :: splitWsAux rest []
    else splitWsAux rest (c :: acc)

/-- Python `str.split()` on a character list. -/
def splitWs (s : List Char) : List (List Char) := splitWsAux s []

/-- `SubtitleSyncEngine._normalize_text`: lowercase, remove every character
that is not a word character, whitespace or an apostrophe
(re `[^\w\s']`), and collapse whitespace (`" ".join(text.split())`). -/
def normalizeChars (s : List Char) : List Char :=
  List.intercalate [' ']
    (splitWs ((s.map Char.toLower).filter
      (fun c => isWordChar c || c.isWhitespace || c = apostrophe)))

/-- `SubtitleSyncEngine._text_similarity`: word-set Jaccard similarity of
two texts; 0 when either text or word set is empty.  Python sets of words
are embedded as deduplicated lists; the union size is the size of the
first set plus the part of the second set not in the first. -/
def textSimilarity (text1 text2 : List Char) : ℚ :=
  if text1 = [] ∨ text2 = [] then 0
  else
    let w1 := (splitWs text1).dedup
    let w2 := (splitWs text2).dedup
    if w1 = [] ∨ w2 = [] then 0
    else
      ((w1.filter (fun w => w ∈ w2)).length : ℚ) /
        (((w1 ++ w2.filter (fun w => w ∉ w1)).length : ℚ))

/-- A subtitle marker of a cue file (`subtitles` array entry). -/
structure SubtitleMarker where
  time_ms : ℤ
  text : String
deriving Repr, DecidableEq

/-- The parts of a loaded cue file used by the subtitle sync engine. -/
structure CueData where
  cues : List Cue
  subtitles : List SubtitleMarker
deriving Repr, DecidableEq

/-- `SyncResult` of subtitle_sync.py. -/
structure SyncResult where
  synced : Bool
  offset_ms : ℤ
  confidence : ℚ
  matched_subtitle : String
  method : String
deriving Repr, DecidableEq

/-- The mutable state of a `SubtitleSyncEngine` (`last_match_time` is the
wall-clock instant of the last match, in ms). -/
structure SubtitleSyncState where
  synced : Bool
  offset_ms : ℤ
  confidence : ℚ
  last_match_time : Option ℤ
  match_history : List ℤ
deriving Repr, DecidableEq

/-- Engine state right after `__init__` (also the state `reset` returns
to). -/
def initSyncState : SubtitleSyncState := ⟨false, 0, 0, none, []⟩

/-- `search_window_ms` setting (±120 s). -/
def searchWindowMs : ℤ := 120000

/-- `min_subtitle_length` setting. -/
def minSubtitleLength : Nat := 8

/-- `required_matches` setting. -/
def requiredMatches : Nat := 1

/-- Loop body of the subtitle-marker search in `_find_subtitle_match`:
markers inside the window are scored by similarity against the normalised
live text; the best score strictly above the 60% threshold is kept. -/
def markerFoldStep (normalized : List Char) (wStart wEnd : ℤ)
    (acc : Option (ℤ × String × ℚ) × ℚ) (sub : SubtitleMarker) :
    Option (ℤ × String × ℚ) × ℚ :=
  if wStart ≤ sub.time_ms ∧ sub.time_ms ≤ wEnd then
    let score := textSimilarity normalized (normalizeChars sub.text.data)
    if score > acc.2 ∧ score > 0.6 then (some (sub.time_ms, sub.text, score), score)
    else acc
  else acc

/-- Whether the first list is an initial segment of the second. -/
def startsWithChars : List Char → List Char → Bool
  | [], _ => true
  | _ :: _, [] => false
  | a :: as, b :: bs => a = b && startsWithChars as bs

/-- Python substring containment `needle in hay` on character lists. -/
def containsChars : List Char → List Char → Bool
  | needle, [] => decide (needle = [])
  | needle, c :: rest => startsWithChars needle (c :: rest) || containsChars needle rest

/-- Backup search of `_find_subtitle_match` over cue entries: the first cue
in the window whose lowercased `word` is a non-empty substring of the
normalised live text is returned with fixed score 0.7 (later cues cannot
beat it since the update needs a strictly larger score). -/
def findCueBackup (cues : List Cue) (normalized : List Char) (wStart wEnd : ℤ) :
    Option (ℤ × String × ℚ) :=
  match cues with
  | [] => none
  | c :: rest =>
    let cueWord := c.word.data.map Char.toLower
    if wStart ≤ c.start_ms ∧ c.start_ms ≤ wEnd ∧ cueWord ≠ [] ∧
        containsChars cueWord normalized = true then
      some (c.start_ms, String.mk cueWord, 0.7)
    else findCueBackup rest normalized wStart wEnd

/-- Search window of `_find_subtitle_match`: when synced, ±10 s around the
extrapolated cue time, otherwise ±120 s around the video time (clamped
below at 0). -/
def syncWindow (st : SubtitleSyncState) (videoTime : ℤ) : ℤ × ℤ :=
  if st.synced = true then
    (videoTime + st.offset_ms - 10000, videoTime + st.offset_ms + 10000)
  else
    (max 0 (videoTime - searchWindowMs), videoTime + searchWindowMs)

/-- `SubtitleSyncEngine._find_subtitle_match`: subtitle markers inside the
window are searched first, cue words as a backup. -/
def findSubtitleMatch (cd : CueData) (st : SubtitleSyncState)
    (normalized : List Char) (videoTime : ℤ) : Option (ℤ × String × ℚ) :=
  let w := syncWindow st videoTime
  match (cd.subtitles.foldl (markerFoldStep normalized w.1 w.2) (none, 0)).1 with
  | some m => some m
  | none => findCueBackup cd.cues normalized w.1 w.2

/-- `SubtitleSyncEngine._is_offset_consistent`: the last `required_matches`
offsets of the history must each be within 2 s of their average (the
`new_offset` argument of the source is unused there beyond having been
appended by the caller). -/
def isOffsetConsistent (history : List ℤ) : Bool :=
  if history.length < requiredMatches then false
  else
    let recent := history.drop (history.length - requiredMatches)
    let avg : ℚ := ((recent.map (fun o => (o : ℚ))).sum) / (recent.length : ℚ)
    recent.all (fun o => decide (|(o : ℚ) - avg| ≤ 2000))

/-- `SubtitleSyncEngine._calculate_stable_offset`: the median (upper middle
element) of the sorted last five offsets; 0 for an empty history. -/
def calculateStableOffset (history : List ℤ) : ℤ :=
  if history = [] then 0
  else
    let sorted := pySorted (history.drop (history.length - 5))
    sorted.getD (sorted.length / 2) 0

/-- `SubtitleSyncEngine.process_subtitle`: skip short texts; otherwise
normalise and search the cue file.  On a match the raw offset is appended
to the history (bounded at 10); if the consistency check passes the engine
declares sync with the stable offset and confidence
`min(0.95, 0.5 + 0.1·len(history))`, else it reports
`pending_confirmation`.  Without a match, a synced engine decays its
confidence when the last match is more than 30 s old. -/
def processSubtitle (cd : CueData) (st : SubtitleSyncState) (text : String)
    (videoTime now : ℤ) : SubtitleSyncState × SyncResult :=
  if text.length < minSubtitleLength then
    (st, ⟨st.synced, st.offset_ms, st.confidence, "", "skipped"⟩)
  else
    let normalized := normalizeChars text.data
    match findSubtitleMatch cd st normalized videoTime with
    | some (cueTime, matchedText, _score) =>
      let newOffset := cueTime - videoTime
      let hist0 := st.match_history ++ [newOffset]
      let hist := if hist0.length > 10 then hist0.drop 1 else hist0
      if isOffsetConsistent hist then
        let off := calculateStableOffset hist
        let conf := min 0.95 (0.5 + (hist.length : ℚ) * 0.1)
        (⟨true, off, conf, some now, hist⟩,
          ⟨true, off, conf, String.mk (matchedText.data.take 50), "subtitle_match"⟩)
      else
        (⟨st.synced, st.offset_ms, st.confidence, st.last_match_time, hist⟩,
          ⟨false, newOffset, 0.3, String.mk (matchedText.data.take 50),
            "pending_confirmation"⟩)
    | none =>
      let st2 :=
        if st.synced = true then
          match st.last_match_time with
          | some t =>
            if now - t > 30000 then
              { st with confidence := max 0.3 (st.confidence - 0.1) }
            else st
          | none => st
        else st
      (st2, ⟨st2.synced, st2.offset_ms, st2.confidence, "", "no_match"⟩)

theorem textSimilarity_self (t : List Char) (h : splitWs t ≠ []) :
    textSimilarity t t = 1 := by
  have ht : t ≠ [] := by
    intro he
    rw [he] at h
    exact h rfl
  rw [textSimilarity, if_neg (by simp [ht])]
  have hw : (splitWs t).dedup ≠ [] := by
    intro he
    exact h ((List.dedup_eq_nil _).mp he)
  rw [if_neg (by simp [hw])]
  have h1 : (splitWs t).dedup.filter (fun w => w ∈ (splitWs t).dedup)
      = (splitWs t).dedup :=
    List.filter_eq_self.mpr (fun a ha => by simpa using ha)
  have h2 : (splitWs t).dedup.filter (fun w => w ∉ (splitWs t).dedup) = [] := by
    rw [List.filter_eq_nil_iff]
    intro a ha
    simp [ha]
  rw [h1, h2, List.append_nil]
  have hpos : 0 < ((splitWs t).dedup.length : ℚ) := by
    exact_mod_cast List.length_pos.mpr hw
  exact div_self (ne_of_gt hpos)

theorem drop_length_sub_one_eq {l : List ℤ} (h : l ≠ []) :
    l.drop (l.length - 1) = [l.getLast h] := by
  induction l with
  | nil => exact absurd rfl h
  | cons a t ih =>
    cases t with
    | nil => simp
    | cons b t2 =>
      have h2 : b :: t2 ≠ [] := List.cons_ne_nil b t2
      have e1 : (a :: b :: t2).length - 1 = t2.length + 1 := by simp
      rw [e1, List.drop_succ_cons]
      have e2 : t2.length = (b :: t2).length - 1 := by simp
      rw [e2, ih h2]
      congr 1

theorem isOffsetConsistent_of_ne_nil (h : List ℤ) (hne : h ≠ []) :
    isOffsetConsistent h = true := by
  have hlen : 0 < h.length := List.length_pos.mpr hne
  have hdrop : h.drop (h.length - requiredMatches) = [h.getLast hne] := by
    rw [requiredMatches]
    exact drop_length_sub_one_eq hne
  rw [isOffsetConsistent, if_neg (by rw [requiredMatches]; omega), hdrop]
  dsimp only
  simp only [List.map_cons, List.map_nil, List.sum_cons, List.sum_nil,
    List.length_cons, List.length_nil, List.all_cons, List.all_nil,
    Bool.and_true, decide_eq_true_eq]
  norm_num

theorem calculateStableOffset_singleton (o : ℤ) :
    calculateStableOffset [o] = o := by
  rw [calculateStableOffset, if_neg (by simp)]
  simp [pySorted, insertSorted]

theorem syncWindow_unsynced {st : SubtitleSyncState} (h : st.synced = false)
    (videoTime : ℤ) :
    syncWindow st videoTime
      = (max 0 (videoTime - searchWindowMs), videoTime + searchWindowMs) := by
  rw [syncWindow, if_neg (by rw [h]; exact Bool.false_ne_true)]

theorem syncWindow_synced {st : SubtitleSyncState} (h : st.synced = true)
    (videoTime : ℤ) :
    syncWindow st videoTime
      = (videoTime + st.offset_ms - 10000, videoTime + st.offset_ms + 10000) := by
  rw [syncWindow, if_pos h]

theorem markerFoldStep_out {n : List Char} {ws we : ℤ}
    {acc : Option (ℤ × String × ℚ) × ℚ} {sub : SubtitleMarker}
    (h : ¬ (ws ≤ sub.time_ms ∧ sub.time_ms ≤ we)) :
    markerFoldStep n ws we acc sub = acc := by
  rw [markerFoldStep, if_neg h]

theorem markerFoldStep_hit {n : List Char} {ws we : ℤ}
    {acc : Option (ℤ × String × ℚ) × ℚ} {sub : SubtitleMarker}
    (hin : ws ≤ sub.time_ms ∧ sub.time_ms ≤ we)
    (hsim : textSimilarity n (normalizeChars sub.text.data) = 1)
    (hacc : acc.2 < 1) :
    markerFoldStep n ws we acc sub = (some (sub.time_ms, sub.text, 1), 1) := by
  rw [markerFoldStep, if_pos hin]
  simp only [hsim]
  rw [if_pos ⟨hacc, by norm_num⟩]

theorem markerFoldStep_saturated {n : List Char} {ws we : ℤ}
    {x : ℤ × String × ℚ} {sub : SubtitleMarker}
    (hsim : textSimilarity n (normalizeChars sub.text.data) ≤ 1) :
    markerFoldStep n ws we (some x, 1) sub = (some x, 1) := by
  rw [markerFoldStep]
  by_cases hin : ws ≤ sub.time_ms ∧ sub.time_ms ≤ we
  · rw [if_pos hin]
    simp only
    rw [if_neg]
    intro hcon
    exact absurd hcon.1 (not_lt.mpr hsim)
  · rw [if_neg hin]

theorem textSimilarity_le_one (t1 t2 : List Char) : textSimilarity t1 t2 ≤ 1 := by
  rw [textSimilarity]
  dsimp only
  split
  · norm_num
  · split
    · norm_num
    · rw [div_le_one]
      · have hsub : ((splitWs t1).dedup.filter (fun w => w ∈ (splitWs t2).dedup)).length
            ≤ (splitWs t1).dedup.length := List.length_filter_le _ _
        have : (splitWs t1).dedup.length
            ≤ ((splitWs t1).dedup ++ (splitWs t2).dedup.filter
                (fun w => w ∉ (splitWs t1).dedup)).length := by
          rw [List.length_append]
          omega
        exact_mod_cast le_trans hsub this
      · have hne : (splitWs t1).dedup ≠ [] := by
          rename_i hcond
          intro he
          exact hcond (Or.inl he)
        have h1 : 0 < (splitWs t1).dedup.length := List.length_pos.mpr hne
        have : 0 < ((splitWs t1).dedup ++ (splitWs t2).dedup.filter
            (fun w => w ∉ (splitWs t1).dedup)).length := by
          rw [List.length_append]
          omega
        exact_mod_cast this

theorem foldl_single_hit {n : List Char} {ws we : ℤ} {m : SubtitleMarker} :
    ∀ subs : List SubtitleMarker, m ∈ subs →
    (ws ≤ m.time_ms ∧ m.time_ms ≤ we) →
    (∀ m2 ∈ subs, m2 ≠ m → ¬ (ws ≤ m2.time_ms ∧ m2.time_ms ≤ we)) →
    textSimilarity n (normalizeChars m.text.data) = 1 →
    subs.foldl (markerFoldStep n ws we) (none, 0)
      = (some (m.time_ms, m.text, 1), 1) := by
  have after : ∀ subs : List SubtitleMarker,
      (∀ m2 ∈ subs, m2 = m ∨ ¬ (ws ≤ m2.time_ms ∧ m2.time_ms ≤ we)) →
      ∀ x, subs.foldl (markerFoldStep n ws we) (some x, 1) = (some x, 1) := by
    intro subs
    induction subs with
    | nil => intro _ x; rfl
    | cons s rest ih =>
      intro hall x
      rw [List.foldl_cons, markerFoldStep_saturated (textSimilarity_le_one _ _)]
      exact ih (fun m2 hm2 => hall m2 (List.mem_cons_of_mem s hm2)) x
  intro subs
  induction subs with
  | nil => intro h; cases h
  | cons s rest ih =>
    intro hmem hin hout hsim
    by_cases hes : s = m
    · subst hes
      rw [List.foldl_cons, markerFoldStep_hit hin hsim (by norm_num)]
      exact after rest
        (fun m2 hm2 => by
          by_cases he : m2 = s
          · left; exact he
          · right; exact hout m2 (List.mem_cons_of_mem s hm2) he) _
    · have hmr : m ∈ rest := by
        rcases List.mem_cons.mp hmem with hsm | hmr
        · exact absurd hsm.symm hes
        · exact hmr
      have hsout : ¬ (ws ≤ s.time_ms ∧ s.time_ms ≤ we) :=
        hout s (List.mem_cons_self s rest) hes
      rw [List.foldl_cons, markerFoldStep_out hsout]
      exact ih hmr hin (fun m2 hm2 => hout m2 (List.mem_cons_of_mem s hm2)) hsim

theorem processSubtitle_match (cd : CueData) (st : SubtitleSyncState)
    (text : String) (videoTime now ct : ℤ) (mt : String) (sc : ℚ)
    (hlen : minSubtitleLength ≤ text.length)
    (hfind : findSubtitleMatch cd st (normalizeChars text.data) videoTime
      = some (ct, mt, sc))
    (hsize : (st.match_history ++ [ct - videoTime]).length ≤ 10) :
    processSubtitle cd st text videoTime now =
      (⟨true, calculateStableOffset (st.match_history ++ [ct - videoTime]),
          min 0.95 (0.5 + ((st.match_history ++ [ct - videoTime]).length : ℚ) * 0.1),
          some now, st.match_history ++ [ct - videoTime]⟩,
        ⟨true, calculateStableOffset (st.match_history ++ [ct - videoTime]),
          min 0.95 (0.5 + ((st.match_history ++ [ct - videoTime]).length : ℚ) * 0.1),
          String.mk (mt.data.take 50), "subtitle_match"⟩) := by
  rw [processSubtitle, if_neg (not_lt.mpr hlen)]
  dsimp only
  rw [hfind]
  dsimp only
  rw [if_neg (not_lt.mpr hsize),
    if_pos (isOffsetConsistent_of_ne_nil _ (List.append_ne_nil_of_right_ne_nil _ (by simp)))]

/-- C3.  Subtitle-text sync from the unsynced initial state with the
default `required_matches = 1`: a live subtitle (of at least the minimum
length) whose normalised form equals the normalised text of the single
subtitle marker of the cue file, with the marker inside the ±120 s search
window, declares sync.  The similarity is the word-set Jaccard score 1,
the offset is `marker_time − video_time` (the median of the one-element
offset history), and the confidence is
`min(0.95, 0.5 + 0.1·1) = 0.6`. -/
theorem C3_subtitle_sync_scenario (cd : CueData) (m : SubtitleMarker)
    (text : String) (videoTime now : ℤ)
    (hsubs : cd.subtitles = [m])
    (hlen : minSubtitleLength ≤ text.length)
    (heq : normalizeChars text.data = normalizeChars m.text.data)
    (hwords : splitWs (normalizeChars text.data) ≠ [])
    (hlo : max 0 (videoTime - searchWindowMs) ≤ m.time_ms)
    (hhi : m.time_ms ≤ videoTime + searchWindowMs) :
    processSubtitle cd initSyncState text videoTime now =
      (⟨true, m.time_ms - videoTime, 0.6, some now, [m.time_ms - videoTime]⟩,
        ⟨true, m.time_ms - videoTime, 0.6, String.mk (m.text.data.take 50),
          "subtitle_match"⟩) := by
  have hsim : textSimilarity (normalizeChars text.data)
      (normalizeChars m.text.data) = 1 := by
    rw [← heq]
    exact textSimilarity_self _ hwords
  have hfind : findSubtitleMatch cd initSyncState (normalizeChars text.data) videoTime
      = some (m.time_ms, m.text, 1) := by
    rw [findSubtitleMatch, hsubs, syncWindow_unsynced rfl,
      foldl_single_hit [m] (List.mem_cons_self m []) ⟨hlo, hhi⟩
        (fun m2 hm2 hne => by
          rcases List.mem_cons.mp hm2 with he | he
          · exact absurd he hne
          · cases he) hsim]
  have h := processSubtitle_match cd initSyncState text videoTime now m.time_ms m.text 1
    hlen hfind (by simp [initSyncState])
  rw [h]
  have e1 : initSyncState.match_history ++ [m.time_ms - videoTime]
      = [m.time_ms - videoTime] := rfl
  rw [e1, calculateStableOffset_singleton]
  have e2 : (([m.time_ms - videoTime].length : ℕ) : ℚ) = 1 := by simp
  rw [e2]
  norm_num

/-- The subtitle marker of scenario S4. -/
def markerS4 : SubtitleMarker := ⟨60000, "hello world how are you"⟩

/-- Cue file of scenario S4: one subtitle marker, no cues. -/
def cdS4 : CueData := ⟨[], [markerS4]⟩

/-- C3, witness: scenario S4 itself.  Marker at 60000 ms with text
`hello world how are you`; the live subtitle `HELLO, world. How ARE you!`
at position 57000 normalises to the same words, so the engine syncs with
offset 3000 and confidence 0.6. -/
theorem C3_subtitle_sync_witness :
    processSubtitle cdS4 initSyncState "HELLO, world. How ARE you!" 57000 0 =
      (⟨true, 3000, 0.6, some 0, [3000]⟩,
        ⟨true, 3000, 0.6, "hello world how are you", "subtitle_match"⟩) := by
  have h := C3_subtitle_sync_scenario cdS4 markerS4 "HELLO, world. How ARE you!"
    57000 0 rfl (by decide) (by decide) (by decide) (by decide) (by decide)
  rw [h]
  rfl

/-- States of a `SubtitleSyncEngine` reachable from construction through
`process_subtitle` calls and `reset`. -/
inductive SyncReachable (cd : CueData) : SubtitleSyncState → Prop where
  | init : SyncReachable cd initSyncState
  | step (st : SubtitleSyncState) (text : String) (videoTime now : ℤ) :
      SyncReachable cd st →
      SyncReachable cd (processSubtitle cd st text videoTime now).1
  | reset (st : SubtitleSyncState) :
      SyncReachable cd st → SyncReachable cd initSyncState

/-- The measure claimed invariant by the spec (§8, invariant 5): the median
of the absolute residuals of the last five offsets of the history against
the stable offset (`_calculate_stable_offset`); median taken as the upper
middle element of the sorted residuals, like the engine does for offsets. -/
def specMedianAbsResidual (history : List ℤ) : ℤ :=
  let stable := calculateStableOffset history
  let residuals := pySorted ((history.drop (history.length - 5)).map
    (fun o => |o - stable|))
  residuals.getD (residuals.length / 2) 0

theorem processSubtitle_shape (cd : CueData) (st : SubtitleSyncState)
    (text : String) (videoTime now : ℤ) :
    ((processSubtitle cd st text videoTime now).1.synced = st.synced ∧
      (processSubtitle cd st text videoTime now).1.match_history = st.match_history) ∨
    (processSubtitle cd st text videoTime now).1.match_history ≠ [] := by
  rw [processSubtitle]
  split
  · left; exact ⟨rfl, rfl⟩
  · dsimp only
    split
    · -- a subtitle match was found
      right
      dsimp only
      split
      · rename_i hlen10
        split
        · dsimp only
          intro hcon
          have h2 := congrArg List.length hcon
          rw [List.length_drop, List.length_nil] at h2
          omega
        · dsimp only
          intro hcon
          have h2 := congrArg List.length hcon
          rw [List.length_drop, List.length_nil] at h2
          omega
      · split
        · dsimp only
          exact List.append_ne_nil_of_right_ne_nil _ (by simp)
        · dsimp only
          exact List.append_ne_nil_of_right_ne_nil _ (by simp)
    · -- no match: the state keeps its flag and history (only the
      -- confidence may decay)
      left
      split
      · split
        · split
          · exact ⟨rfl, rfl⟩
          · exact ⟨rfl, rfl⟩
        · exact ⟨rfl, rfl⟩
      · exact ⟨rfl, rfl⟩

/-- C8 (amended).  The claimed invariant bounds the median absolute
residual of the last five offsets by 2000 ms; that bound fails (see the
counterexample), and what does hold in every reachable synced state is the
consistency the engine actually checks when declaring sync: the offset
history is non-empty and its last `required_matches = 1` offsets are each
within 2 s of their average (`_is_offset_consistent`). -/
theorem C8_synced_invariant (cd : CueData) (st : SubtitleSyncState)
    (h : SyncReachable cd st) (hs : st.synced = true) :
    st.match_history ≠ [] ∧ isOffsetConsistent st.match_history = true := by
  have hne : st.match_history ≠ [] := by
    revert hs
    induction h with
    | init => intro hs; simp [initSyncState] at hs
    | step st2 text videoTime now hr ih =>
      intro hs
      rcases processSubtitle_shape cd st2 text videoTime now with ⟨h1, h2⟩ | h2
      · rw [h2]
        exact ih (by rw [← h1]; exact hs)
      · exact h2
    | reset st2 hr ih => intro hs; simp [initSyncState] at hs
  exact ⟨hne, isOffsetConsistent_of_ne_nil _ hne⟩

/-- Evaluation variant of `foldl_single_hit` for a synced engine. -/
theorem findMatch_synced_eval (cd : CueData) (st : SubtitleSyncState)
    (n : List Char) (videoTime : ℤ) (m : SubtitleMarker)
    (hsync : st.synced = true)
    (hmem : m ∈ cd.subtitles)
    (hin : videoTime + st.offset_ms - 10000 ≤ m.time_ms ∧
      m.time_ms ≤ videoTime + st.offset_ms + 10000)
    (hout : ∀ m2 ∈ cd.subtitles, m2 ≠ m →
      ¬ (videoTime + st.offset_ms - 10000 ≤ m2.time_ms ∧
        m2.time_ms ≤ videoTime + st.offset_ms + 10000))
    (hsim : textSimilarity n (normalizeChars m.text.data) = 1) :
    findSubtitleMatch cd st n videoTime = some (m.time_ms, m.text, 1) := by
  rw [findSubtitleMatch, syncWindow_synced hsync,
    foldl_single_hit cd.subtitles hmem hin hout hsim]

/-- Evaluation variant of `foldl_single_hit` for an unsynced engine. -/
theorem findMatch_unsynced_eval (cd : CueData) (st : SubtitleSyncState)
    (n : List Char) (videoTime : ℤ) (m : SubtitleMarker)
    (hsync : st.synced = false)
    (hmem : m ∈ cd.subtitles)
    (hin : max 0 (videoTime - searchWindowMs) ≤ m.time_ms ∧
      m.time_ms ≤ videoTime + searchWindowMs)
    (hout : ∀ m2 ∈ cd.subtitles, m2 ≠ m →
      ¬ (max 0 (videoTime - searchWindowMs) ≤ m2.time_ms ∧
        m2.time_ms ≤ videoTime + searchWindowMs))
    (hsim : textSimilarity n (normalizeChars m.text.data) = 1) :
    findSubtitleMatch cd st n videoTime = some (m.time_ms, m.text, 1) := by
  rw [findSubtitleMatch, syncWindow_unsynced hsync,
    foldl_single_hit cd.subtitles hmem hin hout hsim]

/-- Subtitle markers of the sync-drift trace refuting the spec invariant. -/
def m8a : SubtitleMarker := ⟨10000, "alpha bravo charlie"⟩

def m8b : SubtitleMarker := ⟨160000, "delta echo foxtrot"⟩

def m8c : SubtitleMarker := ⟨220000, "golf hotel india"⟩

def m8d : SubtitleMarker := ⟨260000, "juliet kilo lima"⟩

def m8e : SubtitleMarker := ⟨310000, "mike november oscar"⟩

/-- Cue file of the drift trace: five subtitle markers, no cues. -/
def cd8 : CueData := ⟨[], [m8a, m8b, m8c, m8d, m8e]⟩

/-- Engine state after matching marker `m8a` at video time 10000. -/
def s8step1 : SubtitleSyncState :=
  (processSubtitle cd8 initSyncState "alpha bravo charlie" 10000 0).1

/-- Engine state after further matching `m8b` at video time 150000. -/
def s8step2 : SubtitleSyncState :=
  (processSubtitle cd8 s8step1 "delta echo foxtrot" 150000 0).1

/-- Engine state after further matching `m8c` at video time 200000. -/
def s8step3 : SubtitleSyncState :=
  (processSubtitle cd8 s8step2 "golf hotel india" 200000 0).1

/-- Engine state after further matching `m8d` at video time 240000. -/
def s8step4 : SubtitleSyncState :=
  (processSubtitle cd8 s8step3 "juliet kilo lima" 240000 0).1

/-- Engine state after further matching `m8e` at video time 280000. -/
def s8step5 : SubtitleSyncState :=
  (processSubtitle cd8 s8step4 "mike november oscar" 280000 0).1

theorem s8step1_props :
    s8step1.synced = true ∧ s8step1.offset_ms = 0 ∧ s8step1.match_history = [0] := by
  have f1 : findSubtitleMatch cd8 initSyncState
      (normalizeChars "alpha bravo charlie".data) 10000
      = some (10000, "alpha bravo charlie", 1) :=
    findMatch_unsynced_eval cd8 initSyncState _ 10000 m8a rfl (by decide)
      (by decide) (by decide) (textSimilarity_self _ (by decide))
  have e1 := processSubtitle_match cd8 initSyncState "alpha bravo charlie"
    10000 0 10000 "alpha bravo charlie" 1 (by decide) f1 (by simp [initSyncState])
  refine ⟨?_, ?_, ?_⟩
  · show (processSubtitle cd8 initSyncState "alpha bravo charlie" 10000 0).1.synced = true
    rw [e1]
  · show (processSubtitle cd8 initSyncState "alpha bravo charlie" 10000 0).1.offset_ms = 0
    rw [e1]
    decide
  · show (processSubtitle cd8 initSyncState "alpha bravo charlie" 10000 0).1.match_history = [0]
    rw [e1]
    decide

theorem s8step2_props :
    s8step2.synced = true ∧ s8step2.offset_ms = 10000 ∧
      s8step2.match_history = [0, 10000] := by
  obtain ⟨h1s, h1o, h1h⟩ := s8step1_props
  have f2 : findSubtitleMatch cd8 s8step1
      (normalizeChars "delta echo foxtrot".data) 150000
      = some (160000, "delta echo foxtrot", 1) :=
    findMatch_synced_eval cd8 s8step1 _ 150000 m8b h1s (by decide)
      (by rw [h1o]; decide) (by rw [h1o]; decide)
      (textSimilarity_self _ (by decide))
  have e2 := processSubtitle_match cd8 s8step1 "delta echo foxtrot"
    150000 0 160000 "delta echo foxtrot" 1 (by decide) f2 (by rw [h1h]; decide)
  refine ⟨?_, ?_, ?_⟩
  · show (processSubtitle cd8 s8step1 "delta echo foxtrot" 150000 0).1.synced = true
    rw [e2]
  · show (processSubtitle cd8 s8step1 "delta echo foxtrot" 150000 0).1.offset_ms = 10000
    rw [e2]
    dsimp only
    rw [h1h]
    decide
  · show (processSubtitle cd8 s8step1 "delta echo foxtrot" 150000 0).1.match_history
      = [0, 10000]
    rw [e2]
    dsimp only
    rw [h1h]
    decide

theorem s8step3_props :
    s8step3.synced = true ∧ s8step3.offset_ms = 10000 ∧
      s8step3.match_history = [0, 10000, 20000] := by
  obtain ⟨h2s, h2o, h2h⟩ := s8step2_props
  have f3 : findSubtitleMatch cd8 s8step2
      (normalizeChars "golf hotel india".data) 200000
      = some (220000, "golf hotel india", 1) :=
    findMatch_synced_eval cd8 s8step2 _ 200000 m8c h2s (by decide)
      (by rw [h2o]; decide) (by rw [h2o]; decide)
      (textSimilarity_self _ (by decide))
  have e3 := processSubtitle_match cd8 s8step2 "golf hotel india"
    200000 0 220000 "golf hotel india" 1 (by decide) f3 (by rw [h2h]; decide)
  refine ⟨?_, ?_, ?_⟩
  · show (processSubtitle cd8 s8step2 "golf hotel india" 200000 0).1.synced = true
    rw [e3]
  · show (processSubtitle cd8 s8step2 "golf hotel india" 200000 0).1.offset_ms = 10000
    rw [e3]
    dsimp only
    rw [h2h]
    decide
  · show (processSubtitle cd8 s8step2 "golf hotel india" 200000 0).1.match_history
      = [0, 10000, 20000]
    rw [e3]
    dsimp only
    rw [h2h]
    decide

theorem s8step4_props :
    s8step4.synced = true ∧ s8step4.offset_ms = 20000 ∧
      s8step4.match_history = [0, 10000, 20000, 20000] := by
  obtain ⟨h3s, h3o, h3h⟩ := s8step3_props
  have f4 : findSubtitleMatch cd8 s8step3
      (normalizeChars "juliet kilo lima".data) 240000
      = some (260000, "juliet kilo lima", 1) :=
    findMatch_synced_eval cd8 s8step3 _ 240000 m8d h3s (by decide)
      (by rw [h3o]; decide) (by rw [h3o]; decide)
      (textSimilarity_self _ (by decide))
  have e4 := processSubtitle_match cd8 s8step3 "juliet kilo lima"
    240000 0 260000 "juliet kilo lima" 1 (by decide) f4 (by rw [h3h]; decide)
  refine ⟨?_, ?_, ?_⟩
  · show (processSubtitle cd8 s8step3 "juliet kilo lima" 240000 0).1.synced = true
    rw [e4]
  · show (processSubtitle cd8 s8step3 "juliet kilo lima" 240000 0).1.offset_ms = 20000
    rw [e4]
    dsimp only
    rw [h3h]
    decide
  · show (processSubtitle cd8 s8step3 "juliet kilo lima" 240000 0).1.match_history
      = [0, 10000, 20000, 20000]
    rw [e4]
    dsimp only
    rw [h3h]
    decide

theorem s8step5_props :
    s8step5.synced = true ∧ s8step5.offset_ms = 20000 ∧
      s8step5.match_history = [0, 10000, 20000, 20000, 30000] := by
  obtain ⟨h4s, h4o, h4h⟩ := s8step4_props
  have f5 : findSubtitleMatch cd8 s8step4
      (normalizeChars "mike november oscar".data) 280000
      = some (310000, "mike november oscar", 1) :=
    findMatch_synced_eval cd8 s8step4 _ 280000 m8e h4s (by decide)
      (by rw [h4o]; decide) (by rw [h4o]; decide)
      (textSimilarity_self _ (by decide))
  have e5 := processSubtitle_match cd8 s8step4 "mike november oscar"
    280000 0 310000 "mike november oscar" 1 (by decide) f5 (by rw [h4h]; decide)
  refine ⟨?_, ?_, ?_⟩
  · show (processSubtitle cd8 s8step4 "mike november oscar" 280000 0).1.synced = true
    rw [e5]
  · show (processSubtitle cd8 s8step4 "mike november oscar" 280000 0).1.offset_ms = 20000
    rw [e5]
    dsimp only
    rw [h4h]
    decide
  · show (processSubtitle cd8 s8step4 "mike november oscar" 280000 0).1.match_history
      = [0, 10000, 20000, 20000, 30000]
    rw [e5]
    dsimp only
    rw [h4h]
    decide

/-- C8, counterexample.  Five subtitle matches at drifting offsets
0, 10000, 20000, 20000, 30000 ms (each within the ±10 s re-match window of
the then-current stable offset, so each is accepted and, with
`required_matches = 1`, re-declares sync) reach a synced state whose last
five offsets have stable offset 20000 and median absolute residual
10000 ms, exceeding the claimed 2000 ms bound. -/
theorem C8_counterexample_median_residual :
    SyncReachable cd8 s8step5 ∧ s8step5.synced = true ∧
      2000 < specMedianAbsResidual s8step5.match_history := by
  obtain ⟨h5s, _h5o, h5h⟩ := s8step5_props
  refine ⟨?_, h5s, ?_⟩
  · exact SyncReachable.step _ _ _ _ (SyncReachable.step _ _ _ _
      (SyncReachable.step _ _ _ _ (SyncReachable.step _ _ _ _
        (SyncReachable.step _ _ _ _ SyncReachable.init))))
  · rw [h5h]
    decide

/-- C8, witness: the amended invariant applied to the concrete reachable
synced state `s8step1`. -/
theorem C8_synced_invariant_witness :
    s8step1.match_history ≠ [] ∧ isOffsetConsistent s8step1.match_history = true :=
  C8_synced_invariant cd8 s8step1
    (SyncReachable.step _ _ _ _ SyncReachable.init) s8step1_props.1

/-! ## Replacement library (backend/profanity/replacements.py) -/

/-- The apostrophe as a one-character string (used in a few table
entries). -/
def apoS : String := String.mk [apostrophe]

/-- `SYLLABLE_REPLACEMENTS`: canonical word to (syllable count, ordered
replacement options). -/
def SYLLABLE_REPLACEMENTS : List (String × Nat × List String) := [
  ("ass", 1, ["butt", "rear", "tush", "rump"]),
  ("damn", 1, ["dang", "darn", "shoot", "rats"]),
  ("hell", 1, ["heck", "flip"]),
  ("shit", 1, ["crap", "crud", "shoot", "drat"]),
  ("fuck", 1, ["fudge", "flip", "frick", "frig"]),
  ("dick", 1, ["jerk", "dork", "fool"]),
  ("cock", 1, ["jerk", "fool", "dork"]),
  ("cunt", 1, ["jerk", "fool", "meanie"]),
  ("slut", 1, ["jerk", "fool"]),
  ("whore", 1, ["jerk", "fool"]),
  ("bitch", 1, ["witch", "jerk"]),
  ("piss", 1, ["ticked", "mad"]),
  ("crap", 1, ["crud", "stuff", "junk"]),
  ("tit", 1, ["chest"]),
  ("tits", 1, ["chest"]),
  ("balls", 1, ["guts", "nerves"]),
  ("arse", 1, ["rear", "butt"]),
  ("prick", 1, ["jerk", "fool"]),
  ("twat", 1, ["fool", "jerk"]),
  ("wank", 1, ["fool"]),
  ("asshole", 2, ["jerkwad", "meanie", "butthead"]),
  ("bastard", 2, ["meanie", "rascal", "scoundrel"]),
  ("bullshit", 2, ["nonsense", "baloney", "hogwash", "rubbish"]),
  ("dammit", 2, ["dang it", "darn it", "shoot it"]),
  ("damnit", 2, ["dang it", "darn it"]),
  ("goddamn", 2, ["gosh darn", "dog gone"]),
  ("shitty", 2, ["crummy", "lousy", "crappy"]),
  ("shittin", 2, ["fibbin", "messin"]),
  ("shitting", 2, ["fibbing", "messing"]),
  ("fucking", 2, ["freaking", "flipping", "fricking"]),
  ("fuckin", 2, ["freakin", "flippin", "frickin"]),
  ("fucker", 2, ["meanie", "stinker", "jerkwad"]),
  ("fuckers", 2, ["meanies", "stinkers", "jerkwads"]),
  ("fucked", 1, ["messed", "ruined"]),
  ("bitchy", 2, ["grumpy", "cranky", "snippy"]),
  ("bitchin", 2, ["awesome", "wicked"]),
  ("idiot", 3, ["silly goose", "goofball"]),
  ("idiots", 3, ["goofballs", "silly folks"]),
  ("stupid", 2, ["silly", "goofy"]),
  ("moron", 2, ["goofball", "silly"]),
  ("screwed", 1, ["messed"]),
  ("pissed", 1, ["ticked", "miffed"]),
  ("horny", 2, ["frisky"]),
  ("boobs", 1, ["chest"]),
  ("booze", 1, ["drinks"]),
  ("badass", 2, ["awesome", "cool cat"]),
  ("jackass", 2, ["dummy", "foolish"]),
  ("dumbass", 2, ["dummy", "silly"]),
  ("dipshit", 2, ["dummy", "dimwit"]),
  ("dickhead", 2, ["jerkwad", "meanie"]),
  ("shithead", 2, ["numbskull", "dummy"]),
  ("motherfucker", 4, ["son of a gun", "goodness gracious"]),
  ("motherfucking", 4, ["flippin" ++ apoS ++ " heckin" ++ apoS, "gosh darn awful"]),
  ("motherfuckin", 4, ["flippin" ++ apoS ++ " heckin" ++ apoS, "gosh darn"]),
  ("goddammit", 3, ["gosh darn it", "oh my gosh"]),
  ("sonofabitch", 4, ["son of a gun", "scoundrel there"]),
  ("bullshitting", 3, ["fibbing here", "stretching it"]),
  ("fucking hell", 3, ["oh my gosh", "goodness me"]),
  ("holy shit", 3, ["holy cow", "oh my gosh", "goodness me"]),
  ("holy fuck", 3, ["holy cow", "oh my gosh"]),
  ("what the fuck", 3, ["what the heck", "what on earth"]),
  ("what the hell", 3, ["what the heck", "what on earth"]),
  ("oh my god", 3, ["oh my gosh", "goodness me"]),
  ("jesus christ", 4, ["goodness gracious", "oh my goodness"]),
  ("for fucks sake", 3, ["for goodness sake", "for pity" ++ apoS ++ "s sake"]),
  ("go to hell", 3, ["go away now", "leave me be"]),
  ("shut the fuck up", 4, ["be quiet please", "hush up now"]),
  ("fuck off", 2, ["go away", "buzz off", "shove off"]),
  ("piss off", 2, ["buzz off", "go away"]),
  ("screw you", 2, ["forget you"]),
  ("fuck you", 2, ["forget you", "screw this"]),
  ("god", 1, ["gosh"]),
  ("jesus", 2, ["gee whiz", "goodness"]),
  ("christ", 1, ["gosh", "geez"])]

/-- `SILLY_REPLACEMENTS`: fun alternatives by word. -/
def SILLY_REPLACEMENTS : List (String × List String) := [
  ("hell", ["H-E-double-hockey-sticks", "heck", "the bad place"]),
  ("damn", ["dagnabbit", "gosh darn", "heckin"]),
  ("shit", ["shucks", "sugar", "shoot", "shinola"]),
  ("fuck", ["fudge", "frick", "frick-frack", "fluffernutter"]),
  ("ass", ["behind", "posterior", "bootie", "keister"]),
  ("bitch", ["witch", "beach", "mean person"]),
  ("bastard", ["scoundrel", "rascal", "rapscallion"]),
  ("crap", ["crud", "crumbs", "criminy"])]

/-- `SEVERITY_DEFAULTS` (unused by the lookup functions but part of the
module). -/
def SEVERITY_DEFAULTS : List (String × String) :=
  [("mild", "darn"), ("moderate", "shoot"), ("strong", "fudge"), ("severe", "frick")]

/-- Python dict `get` on an association list. -/
def assocLookup {α : Type} (l : List (String × α)) (k : String) : Option α :=
  (l.find? (fun p => p.1 = k)).map Prod.snd

/-- Python `str.strip()` on a character list. -/
def trimChars (s : List Char) : List Char :=
  ((s.dropWhile Char.isWhitespace).reverse.dropWhile Char.isWhitespace).reverse

/-- Whether the first list is a suffix of the second. -/
def endsWithChars (suffix s : List Char) : Bool :=
  startsWithChars suffix.reverse s.reverse

/-- Counting loop of `count_syllables`: number of vowel-group starts. -/
def vowelGroups : List Char → Bool → Nat
  | [], _ => 0
  | c :: rest, prevVowel =>
    let isVowel := c ∈ "aeiouy".data
    (if isVowel ∧ ¬ prevVowel then 1 else 0) + vowelGroups rest isVowel

/-- `count_syllables`: estimate syllables from vowel groups, with the
silent-e and `-le` adjustments, clamped to at least 1 (0 for the empty
word). -/
def countSyllables (word : String) : Nat :=
  let w := trimChars (word.data.map Char.toLower)
  if w = [] then 0
  else
    let count := vowelGroups w false
    let count := if endsWithChars ['e'] w ∧ count > 1 then count - 1 else count
    let count :=
      if endsWithChars ['l', 'e'] w ∧ w.length > 2 ∧
          (w.reverse.getD 2 ' ') ∉ "aeiouy".data then
        count + 1
      else count
    max 1 count

/-- Fallback buckets of `get_replacement`, indexed by syllable count
(`syllable_fallbacks.get(n, bucket-for-2)`). -/
def syllableFallbacks (n : Nat) : List String :=
  match n with
  | 1 => ["darn", "shoot", "crud", "drat"]
  | 2 => ["dang it", "oh no", "criminy", "goodness"]
  | 3 => ["oh my gosh", "goodness me", "dear me"]
  | 4 => ["goodness gracious", "oh my goodness"]
  | _ => ["dang it", "oh no", "criminy", "goodness"]

/-- `replacements.get_replacement`: direct syllable-table lookup first
(first option when `match_syllables`), then the silly table, then a
fallback bucket chosen by estimated syllable count. -/
def libGetReplacement (word : String) (matchSyllables : Bool) : String :=
  let wordLower := String.mk (trimChars (word.data.map Char.toLower))
  match assocLookup SYLLABLE_REPLACEMENTS wordLower with
  | some sr =>
    if matchSyllables then sr.2.getD 0 ""
    else
      match assocLookup SILLY_REPLACEMENTS wordLower with
      | some silly => silly.getD 0 ""
      | none => sr.2.getD 0 ""
  | none =>
    match assocLookup SILLY_REPLACEMENTS wordLower with
    | some silly => silly.getD 0 ""
    | none => (syllableFallbacks (countSyllables word)).getD 0 ""

/-- Python `str.isupper()` (ASCII): at least one letter and no lowercase
letter. -/
def pyIsUpper (s : List Char) : Bool :=
  s.any Char.isAlpha && s.all (fun c => !c.isAlpha || c.isUpper)

/-- Python `str.capitalize()` (ASCII): first character uppercased, the
rest lowercased. -/
def pyCapitalize : List Char → List Char
  | [] => []
  | c :: rest => c.toUpper :: rest.map Char.toLower

/-- `detector.get_replacement` (with the default `match_syllables=True`):
syllable-matched replacement with the capitalisation of the matched
surface form. -/
def getReplacement (word : String) : String :=
  let rep := libGetReplacement (String.mk (trimChars (word.data.map Char.toLower))) true
  if pyIsUpper word.data then String.mk (rep.data.map Char.toUpper)
  else if word.data ≠ [] ∧ (word.data.headD ' ').isUpper = true then
    String.mk (pyCapitalize rep.data)
  else rep

/-! ## Profanity detector (backend/profanity/detector.py)

`compile_patterns` builds, for each lexicon entry word `w` (without `*`
obfuscation markers, which none of the modelled entries contain), the
pattern `\b<w>(?:'|in'?|er|ers|ed|ing)?\b` (just `\b<w>'?\b` when `w`
already ends in one of the suffixes), compiled case-insensitively.  The
functions below implement exactly the matching of patterns of this shape:
word boundaries, case-insensitive literal match, and the greedy optional
suffix group with backtracking over the alternatives in order. -/

/-- `PatternInfo`: one compiled pattern entry (`pword` is the entry word
or variant the regex was built from, `word` the canonical word). -/
structure PatternInfo where
  pword : String
  word : String
  display : String
  category : String
  severity : String
  context_required : Bool
deriving Repr, DecidableEq

/-- Whether the regex was built with the word-final-suffix shape
(`w.lower().endswith(('ing', 'in', 'er', 'ers', 'ed'))`). -/
def patternHasSuffix (w : String) : Bool :=
  ["ing", "in", "er", "ers", "ed"].any
    (fun suf => endsWithChars suf.data (w.data.map Char.toLower))

/-- Whether the character at index `i` is a regex word character
(out-of-range counts as non-word). -/
def wordCharAt (text : List Char) (i : Nat) : Bool :=
  match text.get? i with
  | some c => isWordChar c
  | none => false

/-- Regex `\b` at position `i`: exactly one of the neighbouring positions
holds a word character. -/
def boundaryAt (text : List Char) (i : Nat) : Bool :=
  ((if i = 0 then false else wordCharAt text (i - 1))).xor (wordCharAt text i)

/-- Case-insensitive literal match of `pat` at position `i`; returns the
end position. -/
def matchCIAt (text : List Char) : Nat → List Char → Option Nat
  | i, [] => some i
  | i, c :: cs =>
    match text.get? i with
    | some tc => if tc.toLower = c.toLower then matchCIAt text (i + 1) cs else none
    | none => none

/-- The alternatives of the optional suffix group
`(?:'|in'?|er|ers|ed|ing)?` in the order the regex engine tries them
(greedy `'?` inside `in'?` puts the apostrophe variant first). -/
def suffixAlternatives : List (List Char) :=
  [[apostrophe], ['i', 'n', apostrophe], ['i', 'n'], ['e', 'r'],
    ['e', 'r', 's'], ['e', 'd'], ['i', 'n', 'g']]

/-- Backtracking over the suffix alternatives: the first alternative that
matches and is followed by a word boundary wins. -/
def tryAlternatives (text : List Char) : List (List Char) → Nat → Option Nat
  | [], _ => none
  | a :: rest, j =>
    match matchCIAt text j a with
    | some k => if boundaryAt text k then some k else tryAlternatives text rest j
    | none => tryAlternatives text rest j

/-- Match the whole compiled pattern at position `i`: boundary, the word
(case-insensitive), then the greedy optional suffix (only `'` when the
word itself already ends in a suffix), then a boundary. -/
def tryPatternAt (text w : List Char) (suffixed : Bool) (i : Nat) : Option Nat :=
  if boundaryAt text i then
    match matchCIAt text i w with
    | some j =>
      match tryAlternatives text
          (if suffixed then [[apostrophe]] else suffixAlternatives) j with
      | some k => some k
      | none => if boundaryAt text j then some j else none
    | none => none
  else none

/-- Scan of `pattern.finditer(text)`: positions left to right,
non-overlapping (continue at the end of each match). -/
def findIterAux (text w : List Char) (suffixed : Bool) : Nat → Nat → List (Nat × Nat)
  | 0, _ => []
  | fuel + 1, i =>
    if i > text.length then []
    else
      match tryPatternAt text w suffixed i with
      | some j => (i, j) :: findIterAux text w suffixed fuel (max j (i + 1))
      | none => findIterAux text w suffixed fuel (i + 1)

/-- All matches of the compiled pattern over the text. -/
def findIter (text w : List Char) (suffixed : Bool) : List (Nat × Nat) :=
  findIterAux text w suffixed (text.length + 1) 0

/-- Consume `\s+` greedily from position `j` (returns the new position;
unchanged means no whitespace). -/
def consumeWs (text : List Char) (j : Nat) : Nat :=
  j + ((text.drop j).takeWhile Char.isWhitespace).length

/-- Tail `[!]?\b` of the first exclamation pattern at position `j`. -/
def exclamTail (text : List Char) (j : Nat) : Bool :=
  (match text.get? j with
    | some c => if c = '!' then boundaryAt text (j + 1) else false
    | none => false) || boundaryAt text j

/-- First exclamation pattern `\b(oh\s+)?<match>[!]?\b` anchored at `i`. -/
def tryExclam1At (text m : List Char) (i : Nat) : Bool :=
  boundaryAt text i &&
    ((match matchCIAt text i m with
      | some j => exclamTail text j
      | none => false) ||
      (match matchCIAt text i ['o', 'h'] with
        | some j2 =>
          let k := consumeWs text j2
          if k > j2 then
            match matchCIAt text k m with
            | some j3 => exclamTail text j3
            | none => false
          else false
        | none => false))

/-- Second exclamation pattern `\b<match>\s+(damn|dammit)` anchored at
`i`. -/
def tryExclam2At (text m : List Char) (i : Nat) : Bool :=
  boundaryAt text i &&
    (match matchCIAt text i m with
      | some j =>
        let k := consumeWs text j
        if k > j then
          (matchCIAt text k ['d', 'a', 'm', 'n']).isSome ||
            (matchCIAt text k ['d', 'a', 'm', 'm', 'i', 't']).isSome
        else false
      | none => false)

/-- The exclamation heuristic for `context_required` entries:
`re.search` of either exclamation pattern anywhere in the text. -/
def isExclamationUse (text m : List Char) : Bool :=
  (List.range (text.length + 1)).any (tryExclam1At text m) ||
    (List.range (text.length + 1)).any (tryExclam2At text m)

/-- One detection record of `detect_profanity`. -/
structure Detection where
  word : String
  matched : String
  display : String
  replacement : String
  category : String
  severity : String
  confidence : ℚ
  position_start : ℚ
  position_end : ℚ
  char_start : Nat
  char_end : Nat
deriving Repr, DecidableEq

/-- Inner loop of `detect_profanity` over the matches of one pattern,
threading the `seen_matches` set (lowercased surface forms). -/
def processMatches (text : List Char) (p : PatternInfo) :
    List (Nat × Nat) → List (List Char) → List Detection × List (List Char)
  | [], seen => ([], seen)
  | (s, e) :: rest, seen =>
    let matched := (text.drop s).take (e - s)
    let key := matched.map Char.toLower
    if key ∈ seen then processMatches text p rest seen
    else if p.context_required = true ∧ isExclamationUse text matched = false then
      processMatches text p rest seen
    else
      let d : Detection :=
        { word := p.word, matched := String.mk matched, display := p.display,
          replacement := getReplacement (String.mk matched),
          category := p.category, severity := p.severity,
          confidence := if p.context_required = true then 0.75 else 0.95,
          position_start := if 0 < text.length then (s : ℚ) / (text.length : ℚ) else 0,
          position_end := if 0 < text.length then (e : ℚ) / (text.length : ℚ) else 1,
          char_start := s, char_end := e }
      let r := processMatches text p rest (key :: seen)
      (d :: r.1, r.2)

/-- Outer loop of `detect_profanity` over the compiled patterns (the
`seen_matches` set is shared across patterns). -/
def detectProfanityAux (text : List Char) :
    List PatternInfo → List (List Char) → List Detection
  | [], _ => []
  | p :: ps, seen =>
    let r := processMatches text p
      (findIter text p.pword.data (patternHasSuffix p.pword)) seen
    r.1 ++ detectProfanityAux text ps r.2

/-- `detect_profanity(text)` against a compiled pattern list. -/
def detectProfanity (patterns : List PatternInfo) (text : String) : List Detection :=
  detectProfanityAux text.data patterns []

/-! ## Overlay engine (backend/overlay_engine.py)

`process_subtitle` is embedded with the optional LLM advisor absent
(`LLM_AVAILABLE = false`), as the spec treats the advisor as an external
collaborator: under that configuration both advisor branches are skipped
and every detection yields one overlay command.  (Independently, the
`"context_required" in str(detection)` test can never fire because the
detection dicts never contain that key.)  The random `cue_id`
(`uuid.uuid4()`) and the debug fields `word_position` and `subtitle_text`
are not modelled. -/

/-- `MUTE_PADDING_BEFORE_MS`. -/
def MUTE_PADDING_BEFORE_MS : ℤ := 400

/-- `MUTE_PADDING_AFTER_MS`. -/
def MUTE_PADDING_AFTER_MS : ℤ := 150

/-- `MIN_MUTE_DURATION_MS`. -/
def MIN_MUTE_DURATION_MS : ℤ := 400

/-- One overlay command built by `overlay_engine.process_subtitle`. -/
structure OverlayCommand where
  action : String
  start_ms : ℤ
  end_ms : ℤ
  category : String
  confidence : ℚ
  detected : String
  matched : String
  replacement : String
  content_id : String
deriving Repr, DecidableEq

/-- Timing of one detection inside `overlay_engine.process_subtitle`:
the word interval from the fractional position span, asymmetric padding,
and the minimum-duration rule (centre the minimum interval on the word
midpoint, clamped below at 0). -/
def overlayInterval (start_ms end_ms : ℤ) (d : Detection) : ℤ × ℤ :=
  let subtitleDuration := end_ms - start_ms
  let wordStart := start_ms + pyInt ((subtitleDuration : ℚ) * d.position_start)
  let wordEnd := start_ms + pyInt ((subtitleDuration : ℚ) * d.position_end)
  let overlayStart := max 0 (wordStart - MUTE_PADDING_BEFORE_MS)
  let overlayEnd := wordEnd + MUTE_PADDING_AFTER_MS
  if overlayEnd - overlayStart < MIN_MUTE_DURATION_MS then
    let center := (wordStart + wordEnd).fdiv 2
    (max 0 (center - MIN_MUTE_DURATION_MS.fdiv 2), center + MIN_MUTE_DURATION_MS.fdiv 2)
  else (overlayStart, overlayEnd)

/-- `overlay_engine.process_subtitle`: detect profanity in the subtitle
text and emit one mute command per detection with the interval from
`overlayInterval`. -/
def overlayProcessSubtitle (patterns : List PatternInfo) (text : String)
    (start_ms end_ms : ℤ) (content_id : String) : List OverlayCommand :=
  if text.data = [] ∨ trimChars text.data = [] then []
  else
    (detectProfanity patterns text).map (fun d =>
      let p := overlayInterval start_ms end_ms d
      { action := "mute", start_ms := p.1, end_ms := p.2, category := d.category,
        confidence := d.confidence, detected := d.display, matched := d.matched,
        replacement := d.replacement, content_id := content_id })

/-- Modelled from the spec: the profanity lexicon `wordlist.json` is a
data file of the repository not present under the sources; following §4.4
and scenario S1 it contains the entry `fuck` in category `profanity` with
severity `severe`, no variants and no `context_required` flag.
`compile_patterns` turns it into this pattern entry, with the display form
defaulting to the first two characters plus asterisks and the category
string `language.profanity.severe`. -/
def specLexiconPatterns : List PatternInfo :=
  [⟨"fuck", "fuck", "fu**", "language.profanity.severe", "severe", false⟩]

/-- The detection computed by `detect_profanity` for scenario S1: `fuck`
spans characters 9 to 13 of the 26-character subtitle text. -/
def detS1 : Detection :=
  ⟨"fuck", "fuck", "fu**", "fudge", "language.profanity.severe", "severe", 0.95,
    ((9:ℕ):ℚ)/((26:ℕ):ℚ), ((13:ℕ):ℚ)/((26:ℕ):ℚ), 9, 13⟩

/-- The overlay command emitted for scenario S1. -/
def cmdS1 : OverlayCommand :=
  ⟨"mute", 10292, 11150, "language.profanity.severe", 0.95, "fu**", "fuck",
    "fudge", "x:1"⟩

theorem detectS1_eval :
    detectProfanity specLexiconPatterns "What the fuck is going on?" = [detS1] := rfl

theorem overlayS1_eval :
    overlayProcessSubtitle specLexiconPatterns "What the fuck is going on?"
      10000 12000 "x:1" = [cmdS1] := by
  have hint : overlayInterval 10000 12000 detS1 = (10292, 11150) := by
    norm_num [overlayInterval, pyInt, MUTE_PADDING_BEFORE_MS, MUTE_PADDING_AFTER_MS,
      MIN_MUTE_DURATION_MS, detS1]
  rw [overlayProcessSubtitle, if_neg (by decide), detectS1_eval, List.map_cons,
    List.map_nil]
  dsimp only
  rw [hint]
  rfl

/-- C4, counterexample.  The claim asserts the overlay for
`What the fuck is going on?` (10000 to 12000 ms) spans 10468 to 11367 ms,
derived from a fractional span of about 0.434 to 0.609.  The match `fuck`
actually spans characters 9 to 13 of the 26-character text (fractional
span 9/26 to 1/2), and the code emits the interval 10292 to 11150. -/
theorem C4_counterexample_interval :
    ((overlayProcessSubtitle specLexiconPatterns "What the fuck is going on?"
        10000 12000 "x:1").map (fun c => (c.start_ms, c.end_ms))) = [(10292, 11150)] ∧
      ((10292 : ℤ), (11150 : ℤ)) ≠ ((10468 : ℤ), (11367 : ℤ)) := by
  refine ⟨?_, by decide⟩
  rw [overlayS1_eval]
  rfl

/-- C4 (amended: the overlay interval is 10292 to 11150 ms; `fuck` spans
characters 9 to 13 of 26, so the word interval is 10692 to 11000, padded
by 400 before and 150 after).  Against the lexicon entry modelled from the
spec, the subtitle of scenario S1 yields exactly one overlay command:
action mute, category `language.profanity.severe`, matched `fuck`,
replacement `fudge` (an element of the claimed set), interval 10292 to
11150 ms. -/
theorem C4_realtime_detection_scenario :
    overlayProcessSubtitle specLexiconPatterns "What the fuck is going on?"
        10000 12000 "x:1" = [cmdS1] ∧
      cmdS1.action = "mute" ∧ cmdS1.category = "language.profanity.severe" ∧
      cmdS1.matched = "fuck" ∧ cmdS1.replacement ∈ ["fudge", "flip", "frick", "frig"] ∧
      cmdS1.start_ms = 10292 ∧ cmdS1.end_ms = 11150 :=
  ⟨overlayS1_eval, rfl, rfl, rfl, by decide, rfl, rfl⟩

/-- C9 (amended: when the minimum-duration interval centred on the word
midpoint would extend below time 0 it is clipped at 0 and can be shorter
than 400 ms).  Every emitted overlay command has a non-negative start, a
duration of at least `min(400, end_ms)`, and either the full 400 ms
minimum duration or a start clipped to exactly 0. -/
theorem C9_min_duration (patterns : List PatternInfo) (text : String)
    (start_ms end_ms : ℤ) (content_id : String) (cmd : OverlayCommand)
    (hmem : cmd ∈ overlayProcessSubtitle patterns text start_ms end_ms content_id) :
    0 ≤ cmd.start_ms ∧ min 400 cmd.end_ms ≤ cmd.end_ms - cmd.start_ms ∧
      (400 ≤ cmd.end_ms - cmd.start_ms ∨ cmd.start_ms = 0) := by
  rw [overlayProcessSubtitle] at hmem
  split at hmem
  · cases hmem
  · rcases List.mem_map.mp hmem with ⟨d, _hd, hcmd⟩
    subst hcmd
    dsimp only
    rw [overlayInterval]
    dsimp only
    rw [MUTE_PADDING_BEFORE_MS, MUTE_PADDING_AFTER_MS, MIN_MUTE_DURATION_MS]
    set ws := start_ms + pyInt (((end_ms - start_ms : ℤ) : ℚ) * d.position_start) with hws
    set we := start_ms + pyInt (((end_ms - start_ms : ℤ) : ℚ) * d.position_end) with hwe
    have hfd : (400 : ℤ).fdiv 2 = 200 := by decide
    split
    · rename_i hshort
      rw [hfd]
      set c := (ws + we).fdiv 2 with hc
      rcases le_or_lt (c - 200) 0 with hle | hlt
      · rw [max_eq_left hle]
        refine ⟨le_refl 0, ?_, Or.inr rfl⟩
        have : c + 200 ≤ 400 := by omega
        rw [min_eq_right this]
        omega
      · rw [max_eq_right (le_of_lt hlt)]
        refine ⟨by omega, ?_, Or.inl (by omega)⟩
        calc min 400 (c + 200) ≤ 400 := min_le_left _ _
          _ ≤ c + 200 - (c - 200) := by omega
    · rename_i hlong
      push_neg at hlong
      refine ⟨le_max_left 0 _, ?_, Or.inl hlong⟩
      calc min 400 (we + 150) ≤ 400 := min_le_left _ _
        _ ≤ we + 150 - max 0 (ws - 400) := hlong

/-- C9, witness: the minimum-duration bounds applied to the concrete
overlay command of scenario S1 (duration 858 ms ≥ 400). -/
theorem C9_min_duration_witness :
    0 ≤ cmdS1.start_ms ∧ min 400 cmdS1.end_ms ≤ cmdS1.end_ms - cmdS1.start_ms ∧
      (400 ≤ cmdS1.end_ms - cmdS1.start_ms ∨ cmdS1.start_ms = 0) :=
  C9_min_duration specLexiconPatterns "What the fuck is going on?" 10000 12000 "x:1"
    cmdS1 (by rw [overlayS1_eval]; exact List.mem_cons_self _ _)

/-- The detection computed for the subtitle text `fuck` alone (the whole
text, fractional span 0 to 1). -/
def detS9 : Detection :=
  ⟨"fuck", "fuck", "fu**", "fudge", "language.profanity.severe", "severe", 0.95,
    ((0:ℕ):ℚ)/((4:ℕ):ℚ), ((4:ℕ):ℚ)/((4:ℕ):ℚ), 0, 4⟩

theorem detectS9_eval : detectProfanity specLexiconPatterns "fuck" = [detS9] := rfl

/-- C9, counterexample.  For the subtitle `fuck` spanning 0 to 100 ms the
padded interval (0 to 250) is shorter than 400 ms, the midpoint is 50, and
the centred minimum interval (−150 to 250) is clipped at 0: the emitted
command spans 0 to 250 ms, violating the claimed 400 ms minimum duration
and not equal to a 400 ms interval centred on the midpoint. -/
theorem C9_counterexample_clipped :
    ((overlayProcessSubtitle specLexiconPatterns "fuck" 0 100 "x").map
        (fun c => (c.start_ms, c.end_ms))) = [(0, 250)] ∧
      ¬ (400 ≤ (250 : ℤ) - 0) := by
  refine ⟨?_, by decide⟩
  have hint : overlayInterval 0 100 detS9 = (0, 250) := by
    norm_num [overlayInterval, pyInt, MUTE_PADDING_BEFORE_MS, MUTE_PADDING_AFTER_MS,
      MIN_MUTE_DURATION_MS, detS9, Int.fdiv]
  rw [overlayProcessSubtitle, if_neg (by decide), detectS9_eval, List.map_cons,
    List.map_nil]
  dsimp only
  rw [hint]
  rfl

/-! ## Fingerprint matching (backend/audio/fingerprint.py)

Fingerprints are packed uint32 arrays; they are embedded as lists of
naturals (each below 2³²), on which `np.frombuffer(..., uint32)` is the
identity.  Fingerprint generation (the chromaprint library or the fpcalc
tool) is an external backend; `FingerprintMatcher.match` is embedded from
the already-computed live fingerprint (`if not live_fp: return None`
becomes the empty-list check). -/

/-- Structural bit-count helper (`fuel ≥ n` suffices). -/
def popcountAux : Nat → Nat → Nat
  | 0, _ => 0
  | fuel + 1, n => if n = 0 then 0 else n % 2 + popcountAux fuel (n / 2)

/-- Python `bin(x).count('1')`: number of set bits. -/
def popcount (n : Nat) : Nat := popcountAux n n

/-- `FingerprintMatcher._compare_fingerprints`: truncate to the common
length and return 1 minus the fraction of differing bits (0 for empty
inputs). -/
def compareFingerprints (fp1 fp2 : List Nat) : ℚ :=
  if fp1 = [] ∨ fp2 = [] then 0
  else
    let minLen := min fp1.length fp2.length
    if minLen = 0 then 0
    else
      let a := fp1.take minLen
      let b := fp2.take minLen
      let diffBits := ((a.zip b).map (fun p => popcount (p.1 ^^^ p.2))).sum
      1 - (diffBits : ℚ) / ((minLen * 32 : ℕ) : ℚ)

/-- A fingerprint marker (time and packed uint32 fingerprint). -/
structure FpMarker where
  time_ms : ℤ
  fp : List Nat
deriving Repr, DecidableEq

/-- Loop body of `FingerprintMatcher.match`: a marker strictly improving
on the running best score becomes the new best. -/
def fpStep (live : List Nat) (acc : Option ℤ × ℚ) (m : FpMarker) : Option ℤ × ℚ :=
  let score := compareFingerprints live m.fp
  if score > acc.2 then (some m.time_ms, score) else acc

/-- `FingerprintMatcher.match`: best-scoring marker whose score strictly
exceeds the threshold.  The iterated list `_marker_fps` preserves the
order in which the markers were passed to the constructor (the time-sorted
copy `self.markers` is not the list iterated), so ties keep the first
marker in input order. -/
def fpMatch (live : List Nat) (markers : List FpMarker) (threshold : ℚ) :
    Option (ℤ × ℚ) :=
  if live = [] then none
  else
    let r := markers.foldl (fpStep live) ((none : Option ℤ), threshold)
    match r.1 with
    | some t => some (t, r.2)
    | none => none

theorem fpFold_spec (live : List Nat) :
    ∀ (markers : List FpMarker) (a : Option ℤ) (s : ℚ),
    (markers.foldl (fpStep live) (a, s) = (a, s) ∧
      ∀ m ∈ markers, compareFingerprints live m.fp ≤ s) ∨
    (∃ i : Fin markers.length,
      markers.foldl (fpStep live) (a, s) =
        (some (markers.get i).time_ms, compareFingerprints live (markers.get i).fp) ∧
      s < compareFingerprints live (markers.get i).fp ∧
      (∀ j : Fin markers.length, compareFingerprints live (markers.get j).fp
        ≤ compareFingerprints live (markers.get i).fp) ∧
      (∀ j : Fin markers.length, (j : ℕ) < (i : ℕ) →
        compareFingerprints live (markers.get j).fp
          < compareFingerprints live (markers.get i).fp)) := by
  intro markers
  induction markers with
  | nil =>
    intro a s
    left
    exact ⟨rfl, fun m hm => absurd hm (List.not_mem_nil m)⟩
  | cons m ms ih =>
    intro a s
    rw [List.foldl_cons]
    by_cases hgt : compareFingerprints live m.fp > s
    · rw [show fpStep live (a, s) m = (some m.time_ms, compareFingerprints live m.fp) by
        rw [fpStep, if_pos hgt]]
      rcases ih (some m.time_ms) (compareFingerprints live m.fp) with ⟨he, hall⟩ | hex
      · right
        refine ⟨⟨0, by simp⟩, ?_, hgt, ?_, ?_⟩
        · rw [he]
          rfl
        · intro j
          rcases j with ⟨jv, hj⟩
          cases jv with
          | zero => exact le_refl _
          | succ n =>
            rw [List.length_cons] at hj
            exact hall _ (List.get_mem ms n (Nat.lt_of_succ_lt_succ hj))
        · intro j hj
          exact absurd hj (Nat.not_lt_zero _)
      · right
        rcases hex with ⟨i, he, hgt2, hall, hfirst⟩
        refine ⟨i.succ, ?_, lt_trans hgt hgt2, ?_, ?_⟩
        · rw [he]
          rfl
        · intro j
          rcases j with ⟨jv, hj⟩
          cases jv with
          | zero => exact le_of_lt hgt2
          | succ n =>
            rw [List.length_cons] at hj
            exact hall ⟨n, Nat.lt_of_succ_lt_succ hj⟩
        · intro j hj
          rcases j with ⟨jv, hjlt⟩
          cases jv with
          | zero => exact hgt2
          | succ n =>
            rw [List.length_cons] at hjlt
            exact hfirst ⟨n, Nat.lt_of_succ_lt_succ hjlt⟩
              (Nat.lt_of_succ_lt_succ hj)
    · rw [show fpStep live (a, s) m = (a, s) by rw [fpStep, if_neg hgt]]
      rcases ih a s with ⟨he, hall⟩ | hex
      · left
        refine ⟨he, ?_⟩
        intro m2 hm2
        rcases List.mem_cons.mp hm2 with hm2 | hm2
        · rw [hm2]; exact not_lt.mp hgt
        · exact hall m2 hm2
      · right
        rcases hex with ⟨i, he, hgt2, hall, hfirst⟩
        refine ⟨i.succ, ?_, hgt2, ?_, ?_⟩
        · rw [he]
          rfl
        · intro j
          rcases j with ⟨jv, hj⟩
          cases jv with
          | zero => exact le_of_lt (lt_of_le_of_lt (not_lt.mp hgt) hgt2)
          | succ n =>
            rw [List.length_cons] at hj
            exact hall ⟨n, Nat.lt_of_succ_lt_succ hj⟩
        · intro j hj
          rcases j with ⟨jv, hjlt⟩
          cases jv with
          | zero => exact lt_of_le_of_lt (not_lt.mp hgt) hgt2
          | succ n =>
            rw [List.length_cons] at hjlt
            exact hfirst ⟨n, Nat.lt_of_succ_lt_succ hjlt⟩
              (Nat.lt_of_succ_lt_succ hj)

/-- C6 (amended: ties between equal best scores are broken by the earlier
marker in the list order given to the matcher, not by earlier `time_ms`;
the two coincide only when the marker list is time-sorted).  `match`
returns none for an empty marker list (and any input); when it returns a
result, the score strictly exceeds the threshold, belongs to some marker
whose time is the returned time, is the maximum over all markers, and
every strictly earlier marker in list order scores strictly less. -/
theorem C6_fp_match (live : List Nat) (markers : List FpMarker) (θ : ℚ) :
    (fpMatch live [] θ = none) ∧
    (∀ t s, fpMatch live markers θ = some (t, s) →
      θ < s ∧
        ∃ i : Fin markers.length, (markers.get i).time_ms = t ∧
          compareFingerprints live (markers.get i).fp = s ∧
          (∀ j : Fin markers.length, compareFingerprints live (markers.get j).fp ≤ s) ∧
          (∀ j : Fin markers.length, (j : ℕ) < (i : ℕ) →
            compareFingerprints live (markers.get j).fp < s)) := by
  constructor
  · rw [fpMatch]
    split
    · rfl
    · rfl
  · intro t s h
    rw [fpMatch] at h
    split at h
    · cases h
    · rcases fpFold_spec live markers none θ with ⟨he, _⟩ | hex
      · rw [he] at h
        cases h
      · rcases hex with ⟨i, he, hgt, hall, hfirst⟩
        rw [he] at h
        dsimp only at h
        injection h with h1
        injection h1 with ht hs
        subst ht
        subst hs
        exact ⟨hgt, i, rfl, rfl, hall, hfirst⟩

theorem compareFingerprints_single_zero : compareFingerprints [0] [0] = 1 := by
  norm_num [compareFingerprints, popcount, popcountAux]

theorem fpMatch_pair_eval :
    fpMatch [0] [⟨500, [0]⟩, ⟨100, [0]⟩] (1/2) = some (500, 1) := by
  rw [fpMatch, if_neg (by simp)]
  rw [List.foldl_cons, List.foldl_cons, List.foldl_nil]
  rw [show fpStep [0] ((none : Option ℤ), (1/2 : ℚ)) ⟨500, [0]⟩ = (some 500, 1) by
    rw [fpStep]
    dsimp only
    rw [compareFingerprints_single_zero, if_pos (by norm_num)]]
  rw [show fpStep [0] ((some 500 : Option ℤ), (1 : ℚ)) ⟨100, [0]⟩ = (some 500, 1) by
    rw [fpStep]
    dsimp only
    rw [compareFingerprints_single_zero, if_neg (by norm_num)]]

/-- C6, counterexample.  Two markers with identical fingerprints tie at
the best score 1; the claim says the earlier `time_ms` (100) wins, but
with the list ordered (500, 100) the code returns the marker at 500: the
iterated `_marker_fps` keeps construction order, not the time-sorted
order. -/
theorem C6_counterexample_tie_order :
    fpMatch [0] [⟨500, [0]⟩, ⟨100, [0]⟩] (1/2) = some (500, 1) ∧
      compareFingerprints [0] (FpMarker.mk 100 [0]).fp = 1 ∧
      (100 : ℤ) < 500 :=
  ⟨fpMatch_pair_eval, compareFingerprints_single_zero, by decide⟩

theorem fpMatch_single_eval :
    fpMatch [0] [⟨100, [0]⟩] (1/2) = some (100, 1) := by
  rw [fpMatch, if_neg (by simp)]
  rw [List.foldl_cons, List.foldl_nil]
  rw [show fpStep [0] ((none : Option ℤ), (1/2 : ℚ)) ⟨100, [0]⟩ = (some 100, 1) by
    rw [fpStep]
    dsimp only
    rw [compareFingerprints_single_zero, if_pos (by norm_num)]]

/-- C6, witness: the characterisation applied to a concrete match of one
marker at time 100 with score 1 over threshold 1/2. -/
theorem C6_fp_match_witness :
    (1/2 : ℚ) < 1 ∧
      ∃ i : Fin ([⟨100, [0]⟩] : List FpMarker).length,
        (([⟨100, [0]⟩] : List FpMarker).get i).time_ms = 100 ∧
        compareFingerprints [0] (([⟨100, [0]⟩] : List FpMarker).get i).fp = 1 ∧
        (∀ j : Fin ([⟨100, [0]⟩] : List FpMarker).length,
          compareFingerprints [0] (([⟨100, [0]⟩] : List FpMarker).get j).fp ≤ 1) ∧
        (∀ j : Fin ([⟨100, [0]⟩] : List FpMarker).length, (j : ℕ) < (i : ℕ) →
          compareFingerprints [0] (([⟨100, [0]⟩] : List FpMarker).get j).fp < 1) :=
  (C6_fp_match [0] [⟨100, [0]⟩] (1/2)).2 100 1 fpMatch_single_eval

/-! ## Content matcher (backend/audio/fingerprint.py, `ContentMatcher`) -/

/-- Mutable state of a `ContentMatcher`.  Audio chunks are represented by
their sample counts (only the length of a chunk enters the duration
bookkeeping; the sample data itself is consumed by the external
fingerprint backend). -/
structure ContentMatcherState where
  synced : Bool
  offset_ms : Option ℤ
  last_match_time : Option ℤ
  confidence_history : List ℚ
  audio_buffer : List Nat
  buffer_duration_ms : ℤ
deriving Repr, DecidableEq

/-- State after `ContentMatcher.__init__` (and after `reset`). -/
def initContentMatcher : ContentMatcherState := ⟨false, none, none, [], [], 0⟩

/-- `int(len(chunk)/sample_rate*1000)`: duration of a chunk in ms. -/
def chunkDurMs (sampleRate : ℤ) (n : Nat) : ℤ :=
  pyInt ((n : ℚ) / (sampleRate : ℚ) * 1000)

/-- The dict returned by `ContentMatcher.add_audio` (None when not enough
audio is buffered). -/
inductive CMOutcome where
  | syncedRes (content_time_ms : ℤ) (offset_ms : ℤ) (confidence avgConfidence : ℚ)
  | lost (time_since_match_ms : ℤ)
  | searching (synced : Bool)
deriving Repr, DecidableEq

/-- The buffer kept after a processed `add_audio` call: the combined
buffer (`_audio_buffer + [chunk]`) with its older half dropped (the
`len(buf)//2` overlap kept in the source). -/
def cmTrimBuf (st : ContentMatcherState) (chunkLen : Nat) : List Nat :=
  (st.audio_buffer ++ [chunkLen]).drop ((st.audio_buffer ++ [chunkLen]).length / 2)

/-- The recomputed `_buffer_duration_ms` of the trimmed buffer. -/
def cmTrimDur (sampleRate : ℤ) (st : ContentMatcherState) (chunkLen : Nat) : ℤ :=
  ((cmTrimBuf st chunkLen).map (chunkDurMs sampleRate)).sum

/-- `ContentMatcher.add_audio`: buffer the chunk; once 5 s are buffered,
drop the older half (overlap), run the fingerprint match on the combined
buffer (an external computation whose result is the `matchResult` input),
and either update the sync state (smoothing an existing offset with
`0.7·old + 0.3·new` and keeping a 10-entry confidence history) or, after
more than 30 s without a match while synced, declare the sync lost —
clearing only the `synced` flag.  (`if self._synced and
self._last_match_time:` uses Python numeric truthiness, hence the
`t ≠ 0` conjunct.) -/
def cmAddAudio (sampleRate : ℤ) (st : ContentMatcherState) (chunkLen : Nat)
    (wall_time_ms : ℤ) (matchResult : Option (ℤ × ℚ)) :
    ContentMatcherState × Option CMOutcome :=
  let buf := st.audio_buffer ++ [chunkLen]
  let dur := st.buffer_duration_ms + chunkDurMs sampleRate chunkLen
  if dur < 5000 then
    ({ st with audio_buffer := buf, buffer_duration_ms := dur }, none)
  else
    match matchResult with
    | some tc =>
      let newOffset := wall_time_ms - tc.1
      let off := match st.offset_ms with
        | none => newOffset
        | some o => pyInt (0.7 * (o : ℚ) + 0.3 * (newOffset : ℚ))
      let hist0 := st.confidence_history ++ [tc.2]
      let hist := if hist0.length > 10 then hist0.drop 1 else hist0
      (⟨true, some off, some wall_time_ms, hist, cmTrimBuf st chunkLen,
          cmTrimDur sampleRate st chunkLen⟩,
        some (CMOutcome.syncedRes tc.1 off tc.2 (hist.sum / (hist.length : ℚ))))
    | none =>
      match st.last_match_time with
      | some t =>
        if st.synced = true ∧ t ≠ 0 ∧ wall_time_ms - t > 30000 then
          ({ st with
              synced := false
              audio_buffer := cmTrimBuf st chunkLen
              buffer_duration_ms := cmTrimDur sampleRate st chunkLen },
            some (CMOutcome.lost (wall_time_ms - t)))
        else
          ({ st with
              audio_buffer := cmTrimBuf st chunkLen
              buffer_duration_ms := cmTrimDur sampleRate st chunkLen },
            some (CMOutcome.searching st.synced))
      | none =>
        ({ st with
            audio_buffer := cmTrimBuf st chunkLen
            buffer_duration_ms := cmTrimDur sampleRate st chunkLen },
          some (CMOutcome.searching st.synced))

theorem cmAddAudio_short (sampleRate : ℤ) (st : ContentMatcherState)
    (chunkLen : Nat) (wall : ℤ) (mr : Option (ℤ × ℚ))
    (hdur : st.buffer_duration_ms + chunkDurMs sampleRate chunkLen < 5000) :
    cmAddAudio sampleRate st chunkLen wall mr =
      ({ st with
          audio_buffer := st.audio_buffer ++ [chunkLen]
          buffer_duration_ms := st.buffer_duration_ms + chunkDurMs sampleRate chunkLen },
        none) := by
  rw [cmAddAudio.eq_def]
  dsimp only
  rw [if_pos hdur]

theorem cmAddAudio_lost_eval (sampleRate : ℤ) (st : ContentMatcherState)
    (chunkLen : Nat) (wall t : ℤ)
    (hdur : ¬ st.buffer_duration_ms + chunkDurMs sampleRate chunkLen < 5000)
    (hlm : st.last_match_time = some t)
    (hcond : st.synced = true ∧ t ≠ 0 ∧ wall - t > 30000) :
    cmAddAudio sampleRate st chunkLen wall none =
      ({ st with
          synced := false
          audio_buffer := cmTrimBuf st chunkLen
          buffer_duration_ms := cmTrimDur sampleRate st chunkLen },
        some (CMOutcome.lost (wall - t))) := by
  rw [cmAddAudio]
  rw [if_neg hdur, hlm]
  dsimp only
  rw [if_pos hcond]

theorem cmAddAudio_searching_eval (sampleRate : ℤ) (st : ContentMatcherState)
    (chunkLen : Nat) (wall t : ℤ)
    (hdur : ¬ st.buffer_duration_ms + chunkDurMs sampleRate chunkLen < 5000)
    (hlm : st.last_match_time = some t)
    (hcond : ¬(st.synced = true ∧ t ≠ 0 ∧ wall - t > 30000)) :
    cmAddAudio sampleRate st chunkLen wall none =
      ({ st with
          audio_buffer := cmTrimBuf st chunkLen
          buffer_duration_ms := cmTrimDur sampleRate st chunkLen },
        some (CMOutcome.searching st.synced)) := by
  rw [cmAddAudio]
  rw [if_neg hdur, hlm]
  dsimp only
  rw [if_neg hcond]

theorem cmAddAudio_nolast_eval (sampleRate : ℤ) (st : ContentMatcherState)
    (chunkLen : Nat) (wall : ℤ)
    (hdur : ¬ st.buffer_duration_ms + chunkDurMs sampleRate chunkLen < 5000)
    (hlm : st.last_match_time = none) :
    cmAddAudio sampleRate st chunkLen wall none =
      ({ st with
          audio_buffer := cmTrimBuf st chunkLen
          buffer_duration_ms := cmTrimDur sampleRate st chunkLen },
        some (CMOutcome.searching st.synced)) := by
  rw [cmAddAudio]
  rw [if_neg hdur, hlm]

/-- `ContentMatcher.get_content_time`: wall time minus the stored offset
(regardless of the `synced` flag), none when no offset was ever set. -/
def cmGetContentTime (st : ContentMatcherState) (wall_time_ms : ℤ) : Option ℤ :=
  st.offset_ms.map (fun o => wall_time_ms - o)

/-- `ContentMatcher.reset`: clear all state back to the initial values. -/
def cmReset (_st : ContentMatcherState) : ContentMatcherState := initContentMatcher

/-- C10.  When `add_audio` declares loss of sync (a buffered-enough call
with no match, more than 30 s after the last match), only the `synced`
flag is cleared: the stored offset, last match time and confidence
history are untouched, the audio buffer is trimmed exactly as in an
ordinary non-matching call (the post state equals that of the same call
from a state that only differs in `synced := false`, where no loss is
declared), `get_content_time` keeps returning wall time minus the stale
offset, and only `reset` clears the state. -/
theorem C10_loss_frame (sampleRate : ℤ) (st : ContentMatcherState)
    (chunkLen : Nat) (wall ts : ℤ)
    (h : (cmAddAudio sampleRate st chunkLen wall none).2 = some (CMOutcome.lost ts)) :
    ((cmAddAudio sampleRate st chunkLen wall none).1.synced = false) ∧
    ((cmAddAudio sampleRate st chunkLen wall none).1.offset_ms = st.offset_ms) ∧
    ((cmAddAudio sampleRate st chunkLen wall none).1.last_match_time
      = st.last_match_time) ∧
    ((cmAddAudio sampleRate st chunkLen wall none).1.confidence_history
      = st.confidence_history) ∧
    ((cmAddAudio sampleRate st chunkLen wall none).1
      = (cmAddAudio sampleRate { st with synced := false } chunkLen wall none).1) ∧
    (∀ w : ℤ, cmGetContentTime (cmAddAudio sampleRate st chunkLen wall none).1 w
      = st.offset_ms.map (fun o => w - o)) ∧
    (cmReset (cmAddAudio sampleRate st chunkLen wall none).1 = initContentMatcher) := by
  by_cases hdur : st.buffer_duration_ms + chunkDurMs sampleRate chunkLen < 5000
  · rw [cmAddAudio_short sampleRate st chunkLen wall none hdur] at h
    cases h
  · rcases Option.eq_none_or_eq_some st.last_match_time with hlm | ⟨t, hlm⟩
    · rw [cmAddAudio_nolast_eval sampleRate st chunkLen wall hdur hlm] at h
      injection h with h1
      exact CMOutcome.noConfusion h1
    · by_cases hcond : st.synced = true ∧ t ≠ 0 ∧ wall - t > 30000
      · rw [cmAddAudio_lost_eval sampleRate st chunkLen wall t hdur hlm hcond]
        rw [cmAddAudio_searching_eval sampleRate { st with synced := false }
          chunkLen wall t hdur hlm (fun hc => Bool.false_ne_true hc.1)]
        exact ⟨rfl, rfl, rfl, rfl, rfl, fun w => rfl, rfl⟩
      · rw [cmAddAudio_searching_eval sampleRate st chunkLen wall t hdur hlm hcond] at h
        injection h with h1
        exact CMOutcome.noConfusion h1

theorem chunkDurMs_witness_eval : chunkDurMs 1000 5000 = 5000 := by
  norm_num [chunkDurMs, pyInt]

theorem cmAddAudio_witness_eval :
    (cmAddAudio 1000 ⟨true, some 42, some 1000, [1/2], [], 0⟩ 5000 40000 none).2
      = some (CMOutcome.lost 39000) := by
  have hdur : ¬ ((⟨true, some 42, some 1000, [1/2], [], 0⟩ :
      ContentMatcherState).buffer_duration_ms + chunkDurMs 1000 5000 < 5000) := by
    rw [chunkDurMs_witness_eval]
    decide
  rw [cmAddAudio_lost_eval 1000 ⟨true, some 42, some 1000, [1/2], [], 0⟩ 5000 40000 1000
    hdur rfl ⟨rfl, by decide, by decide⟩]
  decide

theorem cmAddAudio_witness_buffer :
    (cmAddAudio 1000 ⟨true, some 42, some 1000, [1/2], [], 0⟩ 5000 40000 none).1.audio_buffer
      = [5000] := by
  have hdur : ¬ ((⟨true, some 42, some 1000, [1/2], [], 0⟩ :
      ContentMatcherState).buffer_duration_ms + chunkDurMs 1000 5000 < 5000) := by
    rw [chunkDurMs_witness_eval]
    decide
  rw [cmAddAudio_lost_eval 1000 ⟨true, some 42, some 1000, [1/2], [], 0⟩ 5000 40000 1000
    hdur rfl ⟨rfl, by decide, by decide⟩]
  rfl

/-- C10, counterexample to the buffer clause: on the very call that
declares loss of sync, the audio buffer is not left unchanged — the
chunk was appended (and the older half dropped) by the ordinary
buffering that precedes the match attempt, so a matcher whose buffer
was empty before the call ends it with the chunk buffered. -/
theorem C10_counterexample_buffer :
    (cmAddAudio 1000 ⟨true, some 42, some 1000, [1/2], [], 0⟩ 5000 40000 none).2
      = some (CMOutcome.lost 39000) ∧
    (cmAddAudio 1000 ⟨true, some 42, some 1000, [1/2], [], 0⟩ 5000 40000 none).1.audio_buffer
      ≠ (⟨true, some 42, some 1000, [1/2], [], 0⟩ : ContentMatcherState).audio_buffer := by
  refine ⟨cmAddAudio_witness_eval, ?_⟩
  rw [cmAddAudio_witness_buffer]
  decide

/-- C10, witness: a synced matcher (offset 42, last match at wall time
1000) fed a 5 s chunk at wall time 40000 with no fingerprint match
declares the sync lost after 39000 ms, keeps offset 42 and last match
time 1000, and still reports content time `w − 42`. -/
theorem C10_loss_frame_witness :
    ((cmAddAudio 1000 ⟨true, some 42, some 1000, [1/2], [], 0⟩ 5000 40000 none).1.synced
      = false) ∧
    ((cmAddAudio 1000 ⟨true, some 42, some 1000, [1/2], [], 0⟩ 5000 40000 none).1.offset_ms
      = some 42) ∧
    ((cmAddAudio 1000 ⟨true, some 42, some 1000, [1/2], [], 0⟩ 5000 40000 none).1.last_match_time
      = some 1000) ∧
    ((cmAddAudio 1000 ⟨true, some 42, some 1000, [1/2], [], 0⟩ 5000 40000 none).1.confidence_history
      = [1/2]) ∧
    ((cmAddAudio 1000 ⟨true, some 42, some 1000, [1/2], [], 0⟩ 5000 40000 none).1
      = (cmAddAudio 1000 ⟨false, some 42, some 1000, [1/2], [], 0⟩ 5000 40000 none).1) ∧
    (∀ w : ℤ,
      cmGetContentTime (cmAddAudio 1000 ⟨true, some 42, some 1000, [1/2], [], 0⟩
        5000 40000 none).1 w = some (w - 42)) ∧
    (cmReset (cmAddAudio 1000 ⟨true, some 42, some 1000, [1/2], [], 0⟩ 5000 40000 none).1
      = initContentMatcher) :=
  C10_loss_frame 1000 ⟨true, some 42, some 1000, [1/2], [], 0⟩ 5000 40000 39000
    cmAddAudio_witness_eval

/-! ## Microsignature alignment scoring (backend/audio/microsignatures.py)

`MicrosignatureMatcher._score_alignment` walks the reference signatures
in order; for each one it finds the first not-yet-matched live signature
of the same type within `match_window_ms` of the offset-adjusted time and
adds `type_weight · (1 − Δt/window) · ((ref.strength + live.strength)/2)`
to the score, marking that live index as matched. -/

/-- `SignatureType`. -/
inductive SigType where
  | onset
  | peak
  | flux
  | silenceStart
  | silenceEnd
deriving Repr, DecidableEq

/-- A microsignature (`Microsignature`: type, time, strength). -/
structure Microsig where
  sig_type : SigType
  time_ms : ℤ
  strength : ℚ
deriving Repr, DecidableEq

/-- `self.type_weights` (constructor defaults; `.get(_, 1.0)` never falls
through since every type is listed). -/
def typeWeight : SigType → ℚ
  | .onset => 2
  | .silenceEnd => 3/2
  | .silenceStart => 3/2
  | .peak => 1
  | .flux => 4/5

/-- `self.match_window_ms = 100`. -/
def matchWindowMs : ℤ := 100

/-- The score added for a matched reference/live pair at adjusted
reference time `adj`:
`weight · (1 − time_diff/window) · ((ref.strength + live.strength)/2)`. -/
def sigContribution (r l : Microsig) (adj : ℤ) : ℚ :=
  typeWeight r.sig_type * (1 - ((|l.time_ms - adj| : ℤ) : ℚ) / ((matchWindowMs : ℤ) : ℚ))
    * ((r.strength + l.strength) / 2)

/-- The inner `for i, live_sig in enumerate(live.signatures)` loop:
first unmatched live signature of the requested type within the match
window of `adj`, together with its index. -/
def findLiveMatchAux : List Microsig → ℕ → List ℕ → SigType → ℤ → Option (ℕ × Microsig)
  | [], _, _, _, _ => none
  | l :: ls, i, matched, rtype, adj =>
    if i ∈ matched then findLiveMatchAux ls (i + 1) matched rtype adj
    else if l.sig_type ≠ rtype then findLiveMatchAux ls (i + 1) matched rtype adj
    else if |l.time_ms - adj| ≤ matchWindowMs then some (i, l)
    else findLiveMatchAux ls (i + 1) matched rtype adj

/-- The outer loop of `_score_alignment`, threading the matched-index set
and the running score. -/
def scoreAlignmentAux : List Microsig → List Microsig → ℤ → List ℕ → ℚ → ℚ
  | [], _, _, _, score => score
  | r :: rs, live, offset, matched, score =>
    match findLiveMatchAux live 0 matched r.sig_type (r.time_ms - offset) with
    | some il =>
      scoreAlignmentAux rs live offset (matched ++ [il.1])
        (score + sigContribution r il.2 (r.time_ms - offset))
    | none => scoreAlignmentAux rs live offset matched score

/-- `MicrosignatureMatcher._score_alignment`. -/
def scoreAlignment (reference live : List Microsig) (offset : ℤ) : ℚ :=
  scoreAlignmentAux reference live offset [] 0

/-- The list of per-pair contributions accumulated by
`_score_alignment`, in match order. -/
def alignmentContribs : List Microsig → List Microsig → ℤ → List ℕ → List ℚ
  | [], _, _, _ => []
  | r :: rs, live, offset, matched =>
    match findLiveMatchAux live 0 matched r.sig_type (r.time_ms - offset) with
    | some il =>
      sigContribution r il.2 (r.time_ms - offset)
        :: alignmentContribs rs live offset (matched ++ [il.1])
    | none => alignmentContribs rs live offset matched

theorem scoreAlignmentAux_eq_sum :
    ∀ (rs live : List Microsig) (offset : ℤ) (matched : List ℕ) (s : ℚ),
    scoreAlignmentAux rs live offset matched s
      = s + (alignmentContribs rs live offset matched).sum := by
  intro rs
  induction rs with
  | nil =>
    intro live offset matched s
    rw [scoreAlignmentAux, alignmentContribs, List.sum_nil, add_zero]
  | cons r rs ih =>
    intro live offset matched s
    rw [scoreAlignmentAux, alignmentContribs]
    rcases hf : findLiveMatchAux live 0 matched r.sig_type (r.time_ms - offset) with _ | il
    · dsimp only
      exact ih live offset matched s
    · dsimp only
      rw [ih live offset (matched ++ [il.1]), List.sum_cons]
      ring

theorem findLiveMatchAux_some :
    ∀ (live : List Microsig) (i : ℕ) (matched : List ℕ) (rtype : SigType) (adj : ℤ)
      (j : ℕ) (l : Microsig),
    findLiveMatchAux live i matched rtype adj = some (j, l) →
      l ∈ live ∧ |l.time_ms - adj| ≤ matchWindowMs := by
  intro live
  induction live with
  | nil =>
    intro i matched rtype adj j l h
    cases h
  | cons x xs ih =>
    intro i matched rtype adj j l h
    rw [findLiveMatchAux] at h
    split at h
    · rcases ih (i + 1) matched rtype adj j l h with ⟨hm, hd⟩
      exact ⟨List.mem_cons_of_mem x hm, hd⟩
    · split at h
      · rcases ih (i + 1) matched rtype adj j l h with ⟨hm, hd⟩
        exact ⟨List.mem_cons_of_mem x hm, hd⟩
      · split at h
        · rename_i hwin
          injection h with h1
          injection h1 with h2 h3
          subst h3
          exact ⟨List.mem_cons_self x xs, hwin⟩
        · rcases ih (i + 1) matched rtype adj j l h with ⟨hm, hd⟩
          exact ⟨List.mem_cons_of_mem x hm, hd⟩

theorem typeWeight_nonneg (t : SigType) : 0 ≤ typeWeight t := by
  cases t <;> norm_num [typeWeight]

theorem sigContribution_nonneg (r l : Microsig) (adj : ℤ)
    (hr : 0 ≤ r.strength) (hl : 0 ≤ l.strength)
    (hd : |l.time_ms - adj| ≤ matchWindowMs) :
    0 ≤ sigContribution r l adj := by
  rw [sigContribution]
  apply mul_nonneg (mul_nonneg (typeWeight_nonneg r.sig_type) ?_) ?_
  · rw [sub_nonneg]
    rw [div_le_one (by norm_num [matchWindowMs])]
    have h1 : ((|l.time_ms - adj| : ℤ) : ℚ) ≤ ((matchWindowMs : ℤ) : ℚ) := by
      exact_mod_cast hd
    exact h1
  · have := add_nonneg hr hl
    linarith

theorem alignmentContribs_nonneg :
    ∀ (rs live : List Microsig) (offset : ℤ) (matched : List ℕ),
    (∀ s ∈ rs, 0 ≤ s.strength) → (∀ s ∈ live, 0 ≤ s.strength) →
    ∀ c ∈ alignmentContribs rs live offset matched, 0 ≤ c := by
  intro rs
  induction rs with
  | nil =>
    intro live offset matched _ _ c hc
    rw [alignmentContribs] at hc
    exact absurd hc (List.not_mem_nil c)
  | cons r rs ih =>
    intro live offset matched href hlive c hc
    rw [alignmentContribs] at hc
    rcases hf : findLiveMatchAux live 0 matched r.sig_type (r.time_ms - offset) with _ | il
    · rw [hf] at hc
      exact ih live offset matched (fun s hs => href s (List.mem_cons_of_mem r hs)) hlive c hc
    · rw [hf] at hc
      rcases List.mem_cons.mp hc with hc | hc
      · rcases findLiveMatchAux_some live 0 matched r.sig_type (r.time_ms - offset)
          il.1 il.2 (by rw [hf]) with ⟨hm, hd⟩
        rw [hc]
        exact sigContribution_nonneg r il.2 (r.time_ms - offset)
          (href r (List.mem_cons_self r rs)) (hlive il.2 hm) hd
      · exact ih live offset (matched ++ [il.1])
          (fun s hs => href s (List.mem_cons_of_mem r hs)) hlive c hc

/-- C7 (confirmed).  Microsignature alignment scoring is monotone in its
match set: the score equals the sum of the per-pair contributions
`type_weight · (1 − Δt/match_window) · ((ref.strength + live.strength)/2)`,
each contribution is non-negative when the signature strengths are
non-negative (the time factor is non-negative because matched pairs lie
within the 100 ms window), so the sum over any sublist — in particular
any strict subset — of the matched-pair contributions cannot exceed the
full alignment score at the same offset. -/
theorem C7_score_monotone (reference live : List Microsig) (offset : ℤ)
    (sub : List ℚ)
    (hsub : sub.Sublist (alignmentContribs reference live offset []))
    (href : ∀ s ∈ reference, 0 ≤ s.strength)
    (hlive : ∀ s ∈ live, 0 ≤ s.strength) :
    sub.sum ≤ scoreAlignment reference live offset := by
  rw [scoreAlignment, scoreAlignmentAux_eq_sum, zero_add]
  exact List.Sublist.sum_le_sum hsub
    (alignmentContribs_nonneg reference live offset [] href hlive)

theorem alignmentContribs_witness_eval :
    alignmentContribs
        [⟨.onset, 1000, 1⟩, ⟨.onset, 2000, 1⟩]
        [⟨.onset, 1050, 1⟩, ⟨.onset, 2050, 1⟩] 0 []
      = [sigContribution ⟨.onset, 1000, 1⟩ ⟨.onset, 1050, 1⟩ 1000,
          sigContribution ⟨.onset, 2000, 1⟩ ⟨.onset, 2050, 1⟩ 2000] := rfl

/-- C7, witness: for two onset references matched to two onset live
signatures (50 ms off each), the single-element sublist keeping only the
second contribution scores no more than the full alignment. -/
theorem C7_score_monotone_witness :
    [sigContribution ⟨.onset, 2000, 1⟩ ⟨.onset, 2050, 1⟩ 2000].sum
      ≤ scoreAlignment
          [⟨.onset, 1000, 1⟩, ⟨.onset, 2000, 1⟩]
          [⟨.onset, 1050, 1⟩, ⟨.onset, 2050, 1⟩] 0 := by
  apply C7_score_monotone
    [⟨.onset, 1000, 1⟩, ⟨.onset, 2000, 1⟩]
    [⟨.onset, 1050, 1⟩, ⟨.onset, 2050, 1⟩] 0
    [sigContribution ⟨.onset, 2000, 1⟩ ⟨.onset, 2050, 1⟩ 2000]
  · rw [alignmentContribs_witness_eval]
    exact List.Sublist.cons _ (List.Sublist.refl _)
  · intro s hs
    rcases List.mem_cons.mp hs with hs | hs
    · rw [hs]; norm_num
    · rcases List.mem_cons.mp hs with hs | hs
      · rw [hs]; norm_num
      · exact absurd hs (List.not_mem_nil s)
  · intro s hs
    rcases List.mem_cons.mp hs with hs | hs
    · rw [hs]; norm_num
    · rcases List.mem_cons.mp hs with hs | hs
      · rw [hs]; norm_num
      · exact absurd hs (List.not_mem_nil s)

/-! ## Precision recording cues (backend/audio/precision_recorder.py,
backend/audio/whisper_transcribe.py)

The Whisper transcription itself is an external backend; the embedding
starts from the transcriber's word list.  The profanity lexicon returned
by `get_all_profanity_words` is the union of the `wordlist.json` entries
(data not present under src/, passed as a parameter) and the hard-coded
`extra_variations` list of `detector.py`, which is embedded literally. -/

/-- `WordTiming` (whisper_transcribe.py): a transcribed word with
timing and confidence. -/
structure WordTiming where
  word : String
  start_ms : ℤ
  end_ms : ℤ
  confidence : ℚ
deriving Repr, DecidableEq

/-- Token cleaning in `find_profanity_timestamps`:
`''.join(c for c in word.word.lower() if c.isalnum())`. -/
def cleanToken (w : String) : List Char :=
  (w.data.map Char.toLower).filter (fun c => c.isAlphanum)

/-- `set(w.lower() for w in profanity_list)`, as a list of
lowercased character lists. -/
def profanitySet (plist : List String) : List (List Char) :=
  plist.map (fun p => p.data.map Char.toLower)

/-- `find_profanity_timestamps`: keep the transcribed words whose
cleaned token is in the lowercased lexicon. -/
def findProfanityTimestamps (words : List WordTiming) (plist : List String) :
    List WordTiming :=
  words.filter (fun w => decide (cleanToken w.word ∈ profanitySet plist))

/-- The `extra_variations` list hard-coded in
`detector.get_all_profanity_words`. -/
def extraVariations : List String :=
  ["fuck", "fucking", "fuckin", "fucked", "fucker", "fucks",
   "motherfuck", "motherfucker", "motherfucking", "motherfuckin",
   "shit", "shitting", "shittin", "shitty", "bullshit",
   "bitch", "bitches", "bitching", "bitchin",
   "ass", "asshole", "asses", "dumbass", "badass", "jackass",
   "damn", "damned", "dammit", "goddamn", "goddammit",
   "hell", "hellhole",
   "crap", "crappy",
   "piss", "pissed", "cunt", "dick", "cock", "bastard",
   "whore", "slut", "douche", "douchebag"]

/-- `get_all_profanity_words`: base words and variations from
`wordlist.json` (the parameter) plus the hard-coded extra variations. -/
def getAllProfanityWords (wordlistWords : List String) : List String :=
  wordlistWords ++ extraVariations

/-- A digit character. -/
def digitChar (n : ℕ) : Char := Char.ofNat (48 + n)

/-- Decimal digits of `n` (fuel-structural; `fuel ≥ n` suffices). -/
def natDigitsAux : ℕ → ℕ → List Char
  | 0, _ => []
  | fuel + 1, n =>
    if n < 10 then [digitChar n]
    else natDigitsAux fuel (n / 10) ++ [digitChar (n % 10)]

/-- Python `f"{n:04d}"`: decimal digits zero-padded to width 4. -/
def pad4 (n : ℕ) : List Char :=
  let d := natDigitsAux n n
  List.replicate (4 - d.length) '0' ++ d

/-- `PADDING_MS = 50` in `_generate_cue_file`. -/
def PADDING_MS : ℤ := 50

/-- A cue entry of the generated cue file. -/
structure PrecisionCue where
  id : String
  type : String
  start_ms : ℤ
  end_ms : ℤ
  detected_word : String
  confidence : ℚ
  source : String
deriving Repr, DecidableEq

/-- The cue-building loop of `_generate_cue_file`
(`for i, word in enumerate(detected)`), with the running index made
explicit. -/
def generateCuesAux (video_offset_ms : ℤ) : List WordTiming → ℕ → List PrecisionCue
  | [], _ => []
  | w :: ws, i =>
    { id := String.mk (['c', 'u', 'e', '_'] ++ pad4 (i + 1))
      type := "mute"
      start_ms := max 0 (w.start_ms - PADDING_MS + video_offset_ms)
      end_ms := w.end_ms + PADDING_MS + video_offset_ms
      detected_word := w.word
      confidence := w.confidence
      source := "whisper" } :: generateCuesAux video_offset_ms ws (i + 1)

/-- The cue list built by `PrecisionRecorder._generate_cue_file` from the
transcriber's words, the lexicon and the configured
`video_start_position_ms`. -/
def generateCueFile (video_offset_ms : ℤ) (words : List WordTiming)
    (plist : List String) : List PrecisionCue :=
  generateCuesAux video_offset_ms (findProfanityTimestamps words plist) 0

theorem generateCuesAux_length (off : ℤ) :
    ∀ (ws : List WordTiming) (i : ℕ),
    (generateCuesAux off ws i).length = ws.length := by
  intro ws
  induction ws with
  | nil => intro i; rfl
  | cons w ws ih =>
    intro i
    rw [generateCuesAux, List.length_cons, List.length_cons, ih (i + 1)]

theorem generateCuesAux_getElem (off : ℤ) :
    ∀ (ws : List WordTiming) (i0 i : ℕ) (w : WordTiming),
    ws[i]? = some w →
    (generateCuesAux off ws i0)[i]? = some
      { id := String.mk (['c', 'u', 'e', '_'] ++ pad4 (i0 + i + 1))
        type := "mute"
        start_ms := max 0 (w.start_ms - PADDING_MS + off)
        end_ms := w.end_ms + PADDING_MS + off
        detected_word := w.word
        confidence := w.confidence
        source := "whisper" } := by
  intro ws
  induction ws with
  | nil =>
    intro i0 i w h
    cases h
  | cons x xs ih =>
    intro i0 i w h
    cases i with
    | zero =>
      rw [List.getElem?_cons_zero] at h
      injection h with h1
      subst h1
      rw [generateCuesAux, List.getElem?_cons_zero]
    | succ n =>
      rw [List.getElem?_cons_succ] at h
      rw [generateCuesAux, List.getElem?_cons_succ]
      rw [show i0 + (n + 1) + 1 = (i0 + 1) + n + 1 by omega]
      exact ih (i0 + 1) n w h

/-- C5 (confirmed).  In precision recording, the detected words are
exactly the transcribed words whose lowercased, non-alphanumeric-stripped
token is in the lowercased lexicon; one cue is emitted per detected word,
in order, with `start_ms = max(0, word.start_ms − 50 + video_offset)`,
`end_ms = word.end_ms + 50 + video_offset`, type `mute`, the word's
confidence from the transcriber, `source = "whisper"`, and id
`cue_` followed by the zero-padded 1-based index. -/
theorem C5_precision_cues (off : ℤ) (words : List WordTiming)
    (plist : List String) :
    (∀ w : WordTiming, w ∈ findProfanityTimestamps words plist ↔
      w ∈ words ∧ cleanToken w.word ∈ profanitySet plist) ∧
    (generateCueFile off words plist).length
      = (findProfanityTimestamps words plist).length ∧
    (∀ (i : ℕ) (w : WordTiming),
      (findProfanityTimestamps words plist)[i]? = some w →
      (generateCueFile off words plist)[i]? = some
        { id := String.mk (['c', 'u', 'e', '_'] ++ pad4 (i + 1))
          type := "mute"
          start_ms := max 0 (w.start_ms - PADDING_MS + off)
          end_ms := w.end_ms + PADDING_MS + off
          detected_word := w.word
          confidence := w.confidence
          source := "whisper" }) := by
  refine ⟨?_, generateCuesAux_length off _ 0, ?_⟩
  · intro w
    rw [findProfanityTimestamps, List.mem_filter]
    rw [decide_eq_true_iff]
  · intro i w h
    have := generateCuesAux_getElem off (findProfanityTimestamps words plist) 0 i w h
    rw [show 0 + i + 1 = i + 1 by omega] at this
    exact this

/-- C5, witness: the S5 scenario.  With `video_start_position_ms =
120000` and transcriber word (shit, 2500, 2700, 9/10), the word survives
lexicon lookup (via the hard-coded extra variations, with any
`wordlist.json` contents) and the sole cue is `cue_0001`, mute,
122450–122750, confidence 9/10, source whisper. -/
theorem C5_precision_cues_witness :
    (⟨"shit", 2500, 2700, 9/10⟩ : WordTiming) ∈
      findProfanityTimestamps [⟨"shit", 2500, 2700, 9/10⟩] (getAllProfanityWords []) ∧
    (generateCueFile 120000 [⟨"shit", 2500, 2700, 9/10⟩] (getAllProfanityWords [])).length
      = 1 ∧
    (generateCueFile 120000 [⟨"shit", 2500, 2700, 9/10⟩] (getAllProfanityWords []))[0]?
      = some ⟨"cue_0001", "mute", 122450, 122750, "shit", 9/10, "whisper"⟩ := by
  have hc := C5_precision_cues 120000 [⟨"shit", 2500, 2700, 9/10⟩] (getAllProfanityWords [])
  have hmem : (⟨"shit", 2500, 2700, 9/10⟩ : WordTiming) ∈
      findProfanityTimestamps [⟨"shit", 2500, 2700, 9/10⟩] (getAllProfanityWords []) := by
    rw [hc.1]
    refine ⟨List.mem_cons_self _ _, ?_⟩
    show cleanToken "shit" ∈ profanitySet (getAllProfanityWords [])
    decide
  have hget : (findProfanityTimestamps [⟨"shit", 2500, 2700, 9/10⟩]
      (getAllProfanityWords []))[0]? = some ⟨"shit", 2500, 2700, 9/10⟩ := by
    rw [show findProfanityTimestamps [(⟨"shit", 2500, 2700, 9/10⟩ : WordTiming)]
        (getAllProfanityWords []) = [⟨"shit", 2500, 2700, 9/10⟩] by
      rw [findProfanityTimestamps]
      rw [List.filter_cons_of_pos (by decide)]
      rfl]
    rfl
  refine ⟨hmem, ?_, ?_⟩
  · rw [hc.2.1]
    rw [show findProfanityTimestamps [(⟨"shit", 2500, 2700, 9/10⟩ : WordTiming)]
        (getAllProfanityWords []) = [⟨"shit", 2500, 2700, 9/10⟩] by
      rw [findProfanityTimestamps]
      rw [List.filter_cons_of_pos (by decide)]
      rfl]
    rfl
  · have := hc.2.2 0 ⟨"shit", 2500, 2700, 9/10⟩ hget
    rw [this]
    rw [show max 0 ((2500 : ℤ) - PADDING_MS + 120000) = 122450 by decide]
    rw [show (2700 : ℤ) + PADDING_MS + 120000 = 122750 by decide]
    rfl

end OpenCue
